import Mathlib

/-!
# Bootstrap service of the node: tag table, response verification, peer scoring, account sets

A shallow embedding of the parts of `nano/node/bootstrap` that the properties below are about.
Hashes, accounts and request ids are natural numbers; 64-bit counters are natural numbers
reduced modulo `2 ^ 64` where the C++ arithmetic could wrap.
-/

namespace nano

/-! ## Tags (`bootstrap_service.hpp`, lines 65-97) -/

/-- Request kinds, `bootstrap_service::query_type`. The first enumerator is the default. -/
inductive query_type where
  | invalid
  | blocks_by_hash
  | blocks_by_account
  | account_info_by_hash
  | frontiers
  deriving DecidableEq, Repr

/-- Request origins, `bootstrap_service::query_source`. -/
inductive query_source where
  | invalid
  | priority
  | database
  | dependencies
  | frontiers
  deriving DecidableEq, Repr

/-- In-flight request descriptor, `bootstrap_service::async_tag`. The two time points are
ticks of the steady clock; `id` is the value drawn by `generate_id ()`. -/
structure async_tag where
  type : query_type
  source : query_source
  start : Nat
  account : Nat
  hash : Nat
  count : Nat
  cutoff : Nat
  timestamp : Nat
  id : Nat
  deriving DecidableEq, Repr

/-! ## Tag container (`bootstrap_service.hpp`, lines 175-192)

`ordered_tags` is a `boost::multi_index_container` with a sequenced index, a `hashed_unique`
index on `id` and two `hashed_non_unique` indices on `account` and `hash`. The container is
represented by its sequenced index (insertion order). An insertion is performed only if every
unique index admits the element; the non-unique indices never refuse. -/

/-- The container `ordered_tags`, as the list of its elements in sequenced order. -/
abbrev ordered_tags := List async_tag

namespace ordered_tags

/-- Membership test through the `tag_id` index: `tags.get<tag_id> ().contains (id)`. -/
def contains (tags : ordered_tags) (id : Nat) : Bool :=
  tags.any (fun t => t.id == id)

/-- Insertion: the element is appended to the sequenced index unless the `hashed_unique`
index on `id` already holds an element with an equal key, in which case nothing is inserted.
The boolean is the `second` of the pair that `insert` returns. -/
def insert (tags : ordered_tags) (tag : async_tag) : ordered_tags × Bool :=
  if contains tags tag.id then (tags, false) else (tags ++ [tag], true)

/-- Erasure by key through the `tag_id` index: `tags.get<tag_id> ().erase (id)`. -/
def erase (tags : ordered_tags) (id : Nat) : ordered_tags :=
  tags.filter (fun t => !(t.id == id))

end ordered_tags

/-- One mutation of the tag container. -/
inductive tags_op where
  | insert (tag : async_tag)
  | erase (id : Nat)
  deriving DecidableEq, Repr

/-- Effect of one mutation on the container. -/
def tags_step (tags : ordered_tags) : tags_op → ordered_tags
  | .insert tag => (ordered_tags.insert tags tag).1
  | .erase id => ordered_tags.erase tags id

/-- Effect of a sequence of mutations, applied left to right to the empty container. -/
def tags_run (ops : List tags_op) : ordered_tags :=
  ops.foldl tags_step []

/-- The ids stored in a container, in sequenced order. -/
def tag_ids (tags : ordered_tags) : List Nat :=
  tags.map (fun t => t.id)

/-! ## Response verification (`bootstrap_service.hpp`, lines 146-160)

The header declares `verify_result` and the two overloads of `verify`; their bodies are in
`bootstrap_service.cpp`. -/

/-- Outcome of verifying a response, `bootstrap_service::verify_result`. -/
inductive verify_result where
  | ok
  | nothing_new
  | invalid
  deriving DecidableEq, Repr

/-- The fields of a block that response verification reads: its hash, the hash of its
predecessor and the account it belongs to. -/
structure block where
  hash : Nat
  previous : Nat
  account : Nat
  deriving DecidableEq, Repr

/-- Modelled from the spec: the start check of `bootstrap_service::verify` for a blocks
payload, whose body (`bootstrap_service.cpp`) is missing. The first block chains from the
requested start when the tag's `start` equals its hash (header comment: blocks must
"correspond to requested hash/account"), its `previous` or its account (section 4.8: "its
`previous`/account does not match the tag"). -/
def chains_from_start (tag : async_tag) (first : block) : Bool :=
  first.hash == tag.start || first.previous == tag.start || first.account == tag.start

/-- Modelled from the spec: the chain walk of `bootstrap_service::verify` for a blocks
payload, whose body (`bootstrap_service.cpp`) is missing. Walks the remaining blocks keeping
the hash of the block before; fails at the first block whose `previous` differs from it
(section 4.8: "any consecutive pair (i, i+1) is not a valid predecessor-successor link"). -/
def makes_chain (previous_hash : Nat) : List block → Bool
  | [] => true
  | b :: rest => if b.previous != previous_hash then false else makes_chain b.hash rest

/-- Modelled from the spec: `bootstrap_service::verify (blocks_payload, tag)`, whose body
(`bootstrap_service.cpp`) is missing. Section 4.8: `nothing_new` when the payload is empty;
`invalid` when the first block does not chain from the requested start or a consecutive
pair is not linked; `ok` otherwise. -/
def verify (response : List block) (tag : async_tag) : verify_result :=
  match response with
  | [] => verify_result.nothing_new
  | first :: rest =>
    if !chains_from_start tag first then verify_result.invalid
    else if !makes_chain first.hash rest then verify_result.invalid
    else verify_result.ok

/-- Modelled from the spec: the order check of `bootstrap_service::verify` for a frontiers
payload, whose body (`bootstrap_service.cpp`) is missing. Walks the accounts keeping the
account before; fails at the first account that is not greater than it (section 4.8:
"strictly increasing by account id"). -/
def ascending_from (previous : Nat) : List (Nat × Nat) → Bool
  | [] => true
  | f :: rest => if f.1 ≤ previous then false else ascending_from f.1 rest

/-- Modelled from the spec: `bootstrap_service::verify (frontiers_payload, tag)`, whose body
(`bootstrap_service.cpp`) is missing. A frontier is a pair (account, frontier hash).
Section 4.8: "frontiers must be strictly increasing by account id and start ≥ the tag's
`start`"; a payload that meets both is `ok`, any other is `invalid`. -/
def verify_frontiers (response : List (Nat × Nat)) (tag : async_tag) : verify_result :=
  match response with
  | [] => verify_result.ok
  | first :: rest =>
    if first.1 < tag.start then verify_result.invalid
    else if !ascending_from first.1 rest then verify_result.invalid
    else verify_result.ok

/-- The payload's consecutive pair at positions `i`, `i + 1` is a predecessor-successor
link: the later block names the hash of the earlier one as its `previous`. -/
def linked (blocks : List block) (i : Nat) : Prop :=
  ∀ (h : i + 1 < blocks.length),
    (blocks.get ⟨i + 1, h⟩).previous = (blocks.get ⟨i, Nat.lt_of_succ_lt h⟩).hash

/-! ## Peer scoring (`peer_scoring.hpp`)

The header defines `peer_score` with its inline `decay` and declares the operations of
`peer_scoring`; the bodies of the operations are in `peer_scoring.cpp`. -/

/-- Wrap-around subtraction of `uint64_t`. -/
def uint64_sub (a b : Nat) : Nat :=
  (a % 2 ^ 64 + (2 ^ 64 - b % 2 ^ 64)) % 2 ^ 64

/-- Per-channel record, `peer_scoring::peer_score`. `channel_ptr` is the raw pointer that
keys the `tag_channel` index; the three counters are `uint64_t`. -/
structure peer_score where
  channel_ptr : Nat
  outstanding : Nat
  request_count_total : Nat
  response_count_total : Nat
  deriving DecidableEq, Repr

namespace peer_score

/-- The inline member `peer_score::decay` (`peer_scoring.hpp`, lines 69-72):
`outstanding = outstanding > 0 ? outstanding - 1 : 0;`. -/
def decay (s : peer_score) : peer_score :=
  { s with outstanding := if s.outstanding > 0 then uint64_sub s.outstanding 1 else 0 }

end peer_score

/-- State of `peer_scoring`: the container `scoring` (unique by `channel_ptr`) and the
channel roster `channels`. -/
structure peer_scoring where
  scoring : List peer_score
  channels : List Nat
  deriving DecidableEq, Repr

namespace peer_scoring

/-- A `peer_scoring` right after construction. -/
def empty : peer_scoring :=
  { scoring := [], channels := [] }

end peer_scoring

/-- Policy constants of the account sets (section 6: `priority_initial`, `priority_increase`,
`priority_decrease`, `priority_max`, `priority_cutoff`; section 4.3: `max_fails`) and the
capacities of the two sets (section 3, which names them `priority_max` and `blocking_max`;
the capacity of the priority set is `priorities_max` here, `priority_max` being the cap on
a priority). -/
structure account_sets_config where
  priority_initial : ℚ
  priority_increase : ℚ
  priority_decrease : ℚ
  priority_max : ℚ
  priority_cutoff : ℚ
  max_fails : Nat
  priorities_max : Nat
  blocking_max : Nat

/-- Modelled from the spec: an entry of the priority set (section 3, account state):
the account, its `priority`, its `fails` counter and its `timestamp`, the last time the
account was handed out. -/
structure priority_entry where
  account : Nat
  priority : ℚ
  fails : Nat
  timestamp : Nat
  deriving DecidableEq

/-- Modelled from the spec: an entry of the blocking set (section 3, account state with
`blocking?` set): the account's entry as it was when it was moved, and the `block_hash` the
account is stalled on. -/
structure blocking_entry where
  original : priority_entry
  dependency : Nat
  deriving DecidableEq

/-- Modelled from the spec: the state of component C3, a priority set and a blocking set,
each keyed by account. -/
structure account_sets where
  priorities : List priority_entry
  blocking : List blocking_entry
  deriving DecidableEq

namespace account_sets

/-- The account sets right after construction: both sets empty. -/
def empty : account_sets :=
  { priorities := [], blocking := [] }

/-- Modelled from the spec: `prioritized (account)`, the account is in the priority set. -/
def prioritized (s : account_sets) (account : Nat) : Bool :=
  s.priorities.any (fun e => e.account == account)

/-- Modelled from the spec: `blocked (account)`, the account is in the blocking set. -/
def blocked (s : account_sets) (account : Nat) : Bool :=
  s.blocking.any (fun b => b.original.account == account)

/-- Lookup of an account in the priority set. -/
def find_priority (s : account_sets) (account : Nat) : Option priority_entry :=
  List.find? (fun e => e.account == account) s.priorities

/-- Lookup of an account in the blocking set. -/
def find_blocking (s : account_sets) (account : Nat) : Option blocking_entry :=
  List.find? (fun b => b.original.account == account) s.blocking

/-- Removal of an account from the priority set. -/
def erase_priority (l : List priority_entry) (account : Nat) : List priority_entry :=
  l.filter (fun e => !(e.account == account))

/-- Removal of an account from the blocking set. -/
def erase_blocking (l : List blocking_entry) (account : Nat) : List blocking_entry :=
  l.filter (fun b => !(b.original.account == account))

/-- Modelled from the spec: the eviction order (section 4.3): "lowest `priority` first, with
`timestamp` as a tiebreak (older evicts first)". Entry `a` goes before entry `b`. -/
def evicts_before (a b : priority_entry) : Bool :=
  decide (a.priority < b.priority) ||
    (decide (a.priority = b.priority) && decide (a.timestamp < b.timestamp))

/-- Modelled from the spec: the eviction victim of the priority set, the entry that goes
before every other in the eviction order, the earliest in the set among equals. -/
def victim_priority : List priority_entry → Option priority_entry
  | [] => none
  | e :: rest =>
    match victim_priority rest with
    | none => some e
    | some v => if evicts_before v e then some v else some e

/-- Modelled from the spec: the eviction victim of the blocking set, by the priority and
timestamp of the entries that moved there. -/
def victim_blocking : List blocking_entry → Option blocking_entry
  | [] => none
  | b :: rest =>
    match victim_blocking rest with
    | none => some b
    | some v => if evicts_before v.original b.original then some v else some b

/-- Modelled from the spec: eviction under capacity in the priority set (section 3:
"Capacity is bounded; insertion evicts the lowest-priority victim"), applied to the set
with the new entry in it: over capacity, the victim is removed. -/
def evict_priority (capacity : Nat) (l : List priority_entry) : List priority_entry :=
  if l.length > capacity then
    match victim_priority l with
    | some v => erase_priority l v.account
    | none => l
  else l

/-- Modelled from the spec: eviction under capacity in the blocking set (section 3), applied
to the set with the new entry in it. -/
def evict_blocking (capacity : Nat) (l : List blocking_entry) : List blocking_entry :=
  if l.length > capacity then
    match victim_blocking l with
    | some v => erase_blocking l v.original.account
    | none => l
  else l

/-- Modelled from the spec: `account_sets::priority_up`. Section 4.3: "insert at
`priority_initial` or multiply existing priority by `priority_increase` (capped at
`priority_max`)": an account of the priority set is raised, any other is inserted, with no
failures and not handed out yet. -/
def priority_up (cfg : account_sets_config) (s : account_sets) (account : Nat) :
    account_sets :=
  if s.prioritized account then
    { s with priorities := s.priorities.map (fun e =>
        if e.account == account then
          { e with priority := min (e.priority * cfg.priority_increase) cfg.priority_max }
        else e) }
  else
    let inserted := s.priorities ++ [⟨account, cfg.priority_initial, 0, 0⟩]
    { s with priorities := evict_priority cfg.priorities_max inserted }

/-- Modelled from the spec: `account_sets::priority_down`. Section 4.3: "multiply by
`priority_decrease`; erase if below `priority_cutoff`; increment `fails`; if
`fails ≥ max_fails`, erase". An account that is not in the priority set has no entry to
lower. -/
def priority_down (cfg : account_sets_config) (s : account_sets) (account : Nat) :
    account_sets :=
  match s.find_priority account with
  | none => s
  | some e =>
    let priority := e.priority * cfg.priority_decrease
    if priority < cfg.priority_cutoff then
      { s with priorities := erase_priority s.priorities account }
    else
      let fails := e.fails + 1
      if fails ≥ cfg.max_fails then
        { s with priorities := erase_priority s.priorities account }
      else
        { s with priorities := s.priorities.map (fun x =>
            if x.account == account then { x with priority := priority, fails := fails }
            else x) }

/-- Modelled from the spec: `account_sets::priority_set`. Section 4.3: "force-insert if
absent, no-op if present", absent being the third account state of section 3 (neither in
the priority set nor in the blocking set). -/
def priority_set (cfg : account_sets_config) (s : account_sets) (account : Nat)
    (value : ℚ) : account_sets :=
  if s.blocked account || s.prioritized account then s
  else
    let inserted := s.priorities ++ [⟨account, value, 0, 0⟩]
    { s with priorities := evict_priority cfg.priorities_max inserted }

/-- Modelled from the spec: `account_sets::block`. Section 4.3: "move to blocking set;
remember `dependency` hash". The entry that moves is the account's priority entry, or its
earlier blocking entry, or a fresh entry at `priority_initial` for an absent account. -/
def block (cfg : account_sets_config) (s : account_sets) (account : Nat)
    (dependency : Nat) : account_sets :=
  let entry : priority_entry :=
    match s.find_priority account with
    | some e => e
    | none =>
      match s.find_blocking account with
      | some b => b.original
      | none => ⟨account, cfg.priority_initial, 0, 0⟩
  let inserted := erase_blocking s.blocking account ++ [⟨entry, dependency⟩]
  { priorities := erase_priority s.priorities account
    blocking := evict_blocking cfg.blocking_max inserted }

/-- Modelled from the spec: `account_sets::unblock`. Section 4.3: "move back into priorities
iff `hash` matches the remembered dependency (or `hash` omitted)". The priority set is
keyed by account, so the entry is inserted only when the account has none there. -/
def unblock (cfg : account_sets_config) (s : account_sets) (account : Nat)
    (hash : Option Nat) : account_sets :=
  match s.find_blocking account with
  | none => s
  | some existing =>
    if hash.isNone || hash == some existing.dependency then
      let inserted := s.priorities ++ [existing.original]
      { priorities :=
          if s.prioritized account then s.priorities
          else evict_priority cfg.priorities_max inserted
        blocking := erase_blocking s.blocking account }
    else s

end account_sets

/-- One call on the account sets. -/
inductive account_sets_op where
  | priority_up (account : Nat)
  | priority_down (account : Nat)
  | priority_set (account : Nat) (value : ℚ)
  | block (account : Nat) (dependency : Nat)
  | unblock (account : Nat) (hash : Option Nat)

/-- Effect of one call on the account sets. -/
def account_sets_step (cfg : account_sets_config) (s : account_sets) :
    account_sets_op → account_sets
  | .priority_up account => s.priority_up cfg account
  | .priority_down account => s.priority_down cfg account
  | .priority_set account value => s.priority_set cfg account value
  | .block account dependency => s.block cfg account dependency
  | .unblock account hash => s.unblock cfg account hash

/-- Effect of a sequence of calls, applied left to right to empty account sets. -/
def account_sets_run (cfg : account_sets_config) (ops : List account_sets_op) :
    account_sets :=
  ops.foldl (account_sets_step cfg) account_sets.empty

/-- The value a `priority_set` call is given is at least the cutoff. -/
def account_sets_op.value_in_range (cfg : account_sets_config) : account_sets_op → Prop
  | account_sets_op.priority_set _ value => cfg.priority_cutoff ≤ value
  | _ => True

/-- Every priority held, in the priority set or with an entry of the blocking set, is at
least the cutoff. -/
def priorities_in_range (cfg : account_sets_config) (s : account_sets) : Prop :=
  (∀ e ∈ s.priorities, cfg.priority_cutoff ≤ e.priority) ∧
    (∀ b ∈ s.blocking, cfg.priority_cutoff ≤ b.original.priority)

/-- A policy used in the worked examples: new accounts enter at priority 2, priorities double
on success up to 32 and halve on failure, entries below priority 1 or with two failures are
dropped, and each set holds at most two accounts. -/
def sample_config : account_sets_config :=
  ⟨2, 2, 1 / 2, 32, 1, 2, 2, 2⟩

/-! ## Default-constructed tags (`bootstrap_service.hpp`, lines 84-97) -/

/-- The value of `async_tag{}`: every member takes its default member initialiser. `type` and
`source` start as `invalid`, the numeric members as zero, `cutoff` as the clock's epoch;
`timestamp` is the clock reading `now` and `id` the value `id` that `generate_id ()` draws. -/
def async_tag.default_constructed (now id : Nat) : async_tag :=
  { type := query_type.invalid
    source := query_source.invalid
    start := 0
    account := 0
    hash := 0
    count := 0
    cutoff := 0
    timestamp := now
    id := id }

/-! ## Expiry of tags (`bootstrap_service.hpp`, lines 111-112)

The header declares `run_timeouts` and `cleanup_and_sync`; their bodies are in
`bootstrap_service.cpp`. -/

/-- Modelled from the spec: the expiry test of the cleanup thread, whose body
(`bootstrap_service.cpp`) is missing. Section 8: "a tag whose `cutoff` has passed"; the
deadline is absolute, so it has passed once the clock reads later than it. -/
def should_timeout (now : Nat) (tag : async_tag) : Bool :=
  decide (tag.cutoff < now)

/-- Modelled from the spec: `expire(now) → expired_tags` of the tag table (section 4.6), whose
body (`bootstrap_service.cpp`) is missing. "`expire` is O(k) over the head of the
insertion-order index": while the container is not empty and its front has timed out, the
front is popped and collected. The result is the collected tags and the container left. -/
def ordered_tags.expire (now : Nat) : ordered_tags → List async_tag × ordered_tags
  | [] => ([], [])
  | front :: rest =>
    if should_timeout now front then
      ((front :: (ordered_tags.expire now rest).1), (ordered_tags.expire now rest).2)
    else ([], front :: rest)

/-- Outcome of processing a block, `nano::block_status`. -/
inductive block_status where
  | progress
  | bad_signature
  | old
  | negative_spend
  | fork
  | unreceivable
  | gap_previous
  | gap_source
  | gap_epoch_open_pending
  | opened_burn_account
  | balance_mismatch
  | representative_mismatch
  | block_position
  | insufficient_work
  deriving DecidableEq, Repr

/-- The fields of a processed block that the inspector reads: the account of its chain, its
hash, the hash of its predecessor and the hash of its source block. -/
structure processed_block where
  account : Nat
  hash : Nat
  previous : Nat
  source : Nat
  deriving DecidableEq, Repr

/-- Modelled from the spec: `bootstrap_service::inspect`, whose body (`bootstrap_service.cpp`)
is missing. Section 4.8, for each (block, status) pair: `progress` — "`priority_up(account)`;
if this block unblocked a previously blocking entry, call `unblock`" (the entries whose
remembered dependency is this block's hash); `gap_source` — blocking on `block.source`;
`gap_previous` — blocking on `block.previous`; `old`, `fork` — `priority_down`; "everything
else — no effect on priorities". -/
def inspect (cfg : account_sets_config) (accounts : account_sets) (result : block_status)
    (b : processed_block) : account_sets :=
  match result with
  | block_status.progress =>
    let raised := accounts.priority_up cfg b.account
    (raised.blocking.filter (fun e => e.dependency == b.hash)).foldl
      (fun acc e => acc.unblock cfg e.original.account (some b.hash)) raised
  | block_status.gap_source => accounts.block cfg b.account b.source
  | block_status.gap_previous => accounts.block cfg b.account b.previous
  | block_status.old => accounts.priority_down cfg b.account
  | block_status.fork => accounts.priority_down cfg b.account
  | _ => accounts

/-! ## Election schedulers (`nano/node/scheduler/component.hpp`, `component.cpp`) -/

namespace scheduler

/-- The names of the four scheduler members of `scheduler::component` (`component.hpp`,
lines 30-34). -/
inductive scheduler_name where
  | hinted
  | manual
  | optimistic
  | priority
  deriving DecidableEq, Repr

/-- The blocks held by the schedulers of a `scheduler::component`, by hash. The manual
scheduler keeps a queue of blocks and declares `contains (block_hash)` (`manual.hpp`, lines
19 and 40), and the priority scheduler is asked `contains (hash)` by `component.cpp`, line
85. The sources show no block container and no `contains` for the hinted and optimistic
schedulers, which `component.cpp` only starts, stops, notifies and asks for container
information. -/
structure component where
  manual : List Nat
  priority : List Nat
  deriving DecidableEq, Repr

namespace component

/-- The member `component::contains` (`component.cpp`, lines 83-86):
`return manual.contains (hash) || priority.contains (hash);`. -/
def contains (c : component) (hash : Nat) : Bool :=
  c.manual.contains hash || c.priority.contains hash

/-- The blocks that exist in a scheduler of the component: those of its queue for the
manual scheduler, those it contains for the priority scheduler, and none for the hinted
and optimistic schedulers, which hold no block by hash in the sources. -/
def blocks (c : component) : scheduler_name → List Nat
  | scheduler_name.hinted => []
  | scheduler_name.manual => c.manual
  | scheduler_name.optimistic => []
  | scheduler_name.priority => c.priority

end component

end scheduler

/-! ## Transport (`nano/node/transport/inproc.cpp`, `tcp_channels.cpp`) -/

namespace transport

/-- A network message as the channels handle it: its type and its content. -/
structure message where
  type : Nat
  content : List Nat
  deriving DecidableEq, Repr

/-- What `message_deserializer::read` passes to its callback (`message_deserializer.hpp`,
lines 51-58): an error code, set or not, and a message or null. -/
structure read_result where
  ec : Bool
  message : Option message
  deriving DecidableEq, Repr

/-- What a call of `inproc::channel::send_impl` does besides returning: the message types
counted as inbound in the statistics, the messages handed to `destination.inbound`, and the
callbacks posted to the io context, each with the buffer size it will be called with. -/
structure send_effects where
  stats_in : List Nat
  inbound : List message
  posted : List (Nat × Nat)
  deriving DecidableEq, Repr

/-- The member `inproc::channel::send_impl` (`inproc.cpp`, lines 21-61). `to_bytes` is the
serialisation of the message into the buffer and `read` the outcome of the deserialiser on
that buffer; neither body is among the sources. The read callback returns early when the
error code is set or the message is null, and otherwise counts the message and passes it to
`destination.inbound`; then the callback, if there is one, is posted; the result is `true`. -/
def inproc.channel.send_impl (to_bytes : message → List Nat)
    (read : List Nat → read_result) (msg : message) (_traffic_type : Nat)
    (callback : Option Nat) : Bool × send_effects :=
  let buffer := to_bytes msg
  let received : List message :=
    match read buffer with
    | ⟨ec_a, message_a⟩ =>
      if ec_a || message_a.isNone then []
      else message_a.toList
  let posted : List (Nat × Nat) :=
    match callback with
    | some callback_l => [(callback_l, buffer.length)]
    | none => []
  (true, { stats_in := received.map (fun m => m.type), inbound := received, posted := posted })

/-- A TCP endpoint: address and port. -/
structure tcp_endpoint where
  address : Nat
  port : Nat
  deriving DecidableEq, Repr

/-- An entry of the channel container of `tcp_channels`, with the attributes of its channel
that `tcp_channels.cpp` reads: remote endpoint, node id, liveness, protocol version and the
time of the last packet sent. -/
structure channel_entry where
  endpoint : tcp_endpoint
  node_id : Nat
  alive : Bool
  network_version : Nat
  last_packet_sent : Nat
  deriving DecidableEq, Repr

/-- State of `tcp_channels`: the channel container, the reachout attempts (endpoint and time
of the last attempt) and the `stopped` flag. -/
structure tcp_channels where
  channels : List channel_entry
  attempts : List (tcp_endpoint × Nat)
  stopped : Bool
  deriving DecidableEq, Repr

/-- The member `tcp_channels::check` (`tcp_channels.cpp`, lines 47-85). `not_a_peer` is
`network::not_a_peer` applied to the endpoint and `allow_local_peers`, and `is_same_ip` is
`transport::is_same_ip` on two addresses; neither body is among the sources. -/
def tcp_channels.check (not_a_peer : tcp_endpoint → Bool → Bool)
    (is_same_ip : Nat → Nat → Bool) (allow_local_peers : Bool) (c : tcp_channels)
    (endpoint : tcp_endpoint) (node_id : Nat) : Bool :=
  if c.stopped then false
  else if not_a_peer endpoint allow_local_peers then false
  else
    let has_duplicate := c.channels.any (fun channel =>
      if is_same_ip channel.endpoint.address endpoint.address then
        if channel.node_id == node_id then true else false
      else false)
    if has_duplicate then false else true

end transport

/-! ## Request aggregator (`nano/node/request_aggregator.cpp`, lines 200-283) -/

/-- The attributes of a block that `request_aggregator::aggregate` reads: its hash and its
qualified root. -/
structure ledger_block where
  hash : Nat
  qualified_root : Nat
  deriving DecidableEq, Repr

/-- The attribute of an account's ledger record that `aggregate` reads: its open block. -/
structure account_info where
  open_block : Nat
  deriving DecidableEq, Repr

/-- The ledger queries that `aggregate` makes under its transaction: `any.block_get`,
`any.block_successor`, `any.account_get`, `store.final_vote.get` and
`confirmed.block_exists`. Their bodies are not among the sources; a ledger is given by what
each query answers. -/
structure ledger where
  block_get : Nat → Option ledger_block
  block_successor : Nat → Option Nat
  account_get : Nat → Option account_info
  final_vote_get : Nat → Option Nat
  confirmed_block_exists : Nat → Bool

/-- The value `aggregate` returns, `request_aggregator::aggregate_result`. -/
structure aggregate_result where
  remaining_normal : List ledger_block
  remaining_final : List ledger_block
  deriving DecidableEq, Repr

namespace request_aggregator

/-- The lambda `search_for_block` of `aggregate` (`request_aggregator.cpp`, lines 208-232):
the ledger block by hash; failing that and for a non-zero root, the block of the successor
of the root if the root has one, else the open block of the account the root names if
there is one; else null. -/
def search_for_block (l : ledger) (hash root : Nat) : Option ledger_block :=
  match l.block_get hash with
  | some block => some block
  | none =>
    if root != 0 then
      match l.block_successor root with
      | some successor => l.block_get successor
      | none =>
        match l.account_get root with
        | some info => l.block_get info.open_block
        | none => none
    else none

/-- The lambda `should_generate_final_vote` of `aggregate` (`request_aggregator.cpp`,
lines 236-249): with a final vote set for the block's qualified root, whether it is the
block's hash; without one, whether the block is confirmed. -/
def should_generate_final_vote (l : ledger) (block : ledger_block) : Bool :=
  match l.final_vote_get block.qualified_root with
  | some final_hash => final_hash == block.hash
  | none => l.confirmed_block_exists block.hash

/-- One turn of the loop of `aggregate` over the requests (`request_aggregator.cpp`,
lines 206-277), on the pair of vectors `to_generate`, `to_generate_final`. -/
def aggregate_one (l : ledger) (acc : List ledger_block × List ledger_block)
    (request : Nat × Nat) : List ledger_block × List ledger_block :=
  match search_for_block l request.1 request.2 with
  | some block =>
    if should_generate_final_vote l block then (acc.1, acc.2 ++ [block])
    else acc
  | none => acc

/-- The member `request_aggregator::aggregate` (`request_aggregator.cpp`, lines 201-283);
a request is a pair (hash, root). Statistics and logging are left out. -/
def aggregate (l : ledger) (requests : List (Nat × Nat)) : aggregate_result :=
  let vectors := requests.foldl (aggregate_one l) ([], [])
  { remaining_normal := vectors.1, remaining_final := vectors.2 }

end request_aggregator

/-! ## Sampling and purging of channels (`tcp_channels.cpp`, lines 154-181 and 309-356) -/

namespace transport

/-- Insertion into the `std::unordered_set` of channel pointers that `random_set` fills. A
channel object is identified by its position in the channel container; inserting a channel
that the set already holds changes nothing. -/
def insert_channel (index : Nat) (result : List Nat) : List Nat :=
  if result.contains index then result else result ++ [index]

/-- The call `result.reserve (count_a)` of `random_set` (`tcp_channels.cpp`, line 157), which
allocates a bucket for each of `count_a` elements and throws when it cannot. Its body is in
the standard library; `max_buckets` is the largest number of buckets that the allocator
provides at the call, and no allocation reaches `2 ^ 61` buckets of eight bytes in a 64-bit
address space. The result tells whether the call returns. -/
def reserve (max_buckets count_a : Nat) : Bool :=
  decide (count_a ≤ max_buckets) && decide (count_a < 2 ^ 61)

/-- The body of the loop of `random_set` (`tcp_channels.cpp`, lines 167-177) at counter `i`:
the set after the turn. `random i n` is the value that the `i`-th call `rng.random (n)`
draws, a position below `n`; a position outside the container samples nothing. -/
def tcp_channels.sample (c : tcp_channels) (random : Nat → Nat → Nat) (min_version : Nat)
    (i : Nat) (result : List Nat) : List Nat :=
  let index := random i c.channels.length
  match c.channels.get? index with
  | none => result
  | some channel =>
    if !channel.alive then result
    else if channel.network_version ≥ min_version then insert_channel index result
    else result

/-- The loop of `tcp_channels::random_set` (`tcp_channels.cpp`, lines 165-178),
`for (auto i (0); i < random_cutoff && result.size () < count_a; ++i)`, with `remaining`
turns left before `i` reaches `random_cutoff`. The counter is an `int`: the increment at
`i = 2 ^ 31 - 1` overflows it and the loop has no defined result from there, which is
`none`. Otherwise the result is the set filled and the number of turns made. -/
def tcp_channels.random_set_loop (c : tcp_channels) (random : Nat → Nat → Nat)
    (count_a min_version : Nat) : Nat → Nat → List Nat → Option (List Nat × Nat)
  | 0, i, result => some (result, i)
  | remaining + 1, i, result =>
    if result.length < count_a then
      if i + 1 ≥ 2 ^ 31 then none
      else
        tcp_channels.random_set_loop c random count_a min_version remaining (i + 1)
          (tcp_channels.sample c random min_version i result)
    else some (result, i)

/-- The member `tcp_channels::random_set` (`tcp_channels.cpp`, lines 154-181). The set is
reserved first, and the call does not return when `reserve` throws. `count_a` is a
`size_t`, so `random_cutoff = count_a * 2` is taken modulo `2 ^ 64`. The result, when there
is one, is the set returned, as positions in the channel container, and the number of
sampling attempts. -/
def tcp_channels.random_set (max_buckets : Nat) (c : tcp_channels)
    (random : Nat → Nat → Nat) (count_a min_version : Nat) : Option (List Nat × Nat) :=
  if reserve max_buckets count_a then
    let random_cutoff := (count_a * 2) % 2 ^ 64
    if !c.channels.isEmpty then
      tcp_channels.random_set_loop c random count_a min_version random_cutoff 0 []
    else some ([], 0)
  else none

/-- The lambda `should_close` of `tcp_channels::purge` (`tcp_channels.cpp`, lines 313-333):
the channel is idle (last packet sent before the cutoff) or of a protocol version below
`protocol_version_min`. -/
def should_close (protocol_version_min cutoff_deadline : Nat) (channel : channel_entry) :
    Bool :=
  if channel.last_packet_sent < cutoff_deadline then true
  else if channel.network_version < protocol_version_min then true
  else false

/-- The call `channel->close ()`, taken to make the channel not alive. -/
def channel_entry.close (entry : channel_entry) : channel_entry :=
  { entry with alive := false }

/-- The view of the reachout attempts through the ordered index `last_attempt_tag`: the
attempts in ascending order of the time of the last attempt. -/
def attempts_by_last_attempt (attempts : List (tcp_endpoint × Nat)) :
    List (tcp_endpoint × Nat) :=
  attempts.insertionSort (fun a b => a.2 ≤ b.2)

/-- The position `lower_bound (cutoff_deadline)` in the ordered index: that of the first
attempt whose time is not before the cutoff. -/
def lower_bound (cutoff_deadline : Nat) (ordered : List (tcp_endpoint × Nat)) : Nat :=
  (ordered.takeWhile (fun a => decide (a.2 < cutoff_deadline))).length

/-- The member `tcp_channels::purge` (`tcp_channels.cpp`, lines 309-356): every channel that
`should_close` selects is closed; the channels that are not alive are erased; the attempts
from the beginning of the ordered index up to `lower_bound (cutoff_deadline)` are erased. -/
def tcp_channels.purge (protocol_version_min : Nat) (c : tcp_channels)
    (cutoff_deadline : Nat) : tcp_channels :=
  let closed := c.channels.map (fun entry =>
    if should_close protocol_version_min cutoff_deadline entry then entry.close else entry)
  let ordered := attempts_by_last_attempt c.attempts
  let attempts_cutoff := lower_bound cutoff_deadline ordered
  let erased := ordered.take attempts_cutoff
  { channels := closed.filter (fun entry => entry.alive)
    attempts := c.attempts.filter (fun a => !(erased.contains a))
    stopped := c.stopped }

end transport

/-- What `random_set` keeps true of the set it fills: no channel twice, at most `count_a`
channels, each a live channel of the container with a sufficient protocol version. -/
def sampled_ok (c : transport.tcp_channels) (count_a min_version : Nat)
    (result : List Nat) : Prop :=
  result.Nodup ∧ result.length ≤ count_a ∧
    ∀ index ∈ result, ∃ channel, c.channels.get? index = some channel ∧
      channel.alive = true ∧ min_version ≤ channel.network_version

/-! ## Lemmas on the tag container -/

theorem ordered_tags.contains_iff (tags : ordered_tags) (id : Nat) :
    ordered_tags.contains tags id = true ↔ id ∈ tag_ids tags := by
  unfold ordered_tags.contains tag_ids
  simp only [List.any_eq_true, beq_iff_eq, List.mem_map]

theorem tag_ids_insert_nodup (tags : ordered_tags) (tag : async_tag)
    (h : (tag_ids tags).Nodup) : (tag_ids (ordered_tags.insert tags tag).1).Nodup := by
  unfold ordered_tags.insert
  by_cases hc : ordered_tags.contains tags tag.id = true
  · simpa [hc] using h
  · have hn : tag.id ∉ tag_ids tags := fun hm => hc ((ordered_tags.contains_iff tags tag.id).2 hm)
    simp only [hc, Bool.false_eq_true, if_false]
    unfold tag_ids at *
    rw [List.map_append, List.nodup_append]
    refine ⟨h, by simp, ?_⟩
    intro a ha hb
    simp only [List.map_cons, List.map_nil, List.mem_singleton] at hb
    subst hb
    exact hn ha

theorem tag_ids_erase_nodup (tags : ordered_tags) (id : Nat)
    (h : (tag_ids tags).Nodup) : (tag_ids (ordered_tags.erase tags id)).Nodup := by
  unfold ordered_tags.erase tag_ids at *
  exact (List.filter_sublist tags).map _ |>.nodup h

theorem tags_step_nodup (tags : ordered_tags) (op : tags_op)
    (h : (tag_ids tags).Nodup) : (tag_ids (tags_step tags op)).Nodup := by
  cases op with
  | insert tag => exact tag_ids_insert_nodup tags tag h
  | erase id => exact tag_ids_erase_nodup tags id h

theorem tags_foldl_nodup (ops : List tags_op) (tags : ordered_tags)
    (h : (tag_ids tags).Nodup) : (tag_ids (ops.foldl tags_step tags)).Nodup := by
  induction ops generalizing tags with
  | nil => simpa using h
  | cons op rest ih => exact ih _ (tags_step_nodup tags op h)


/-! ## Properties of the tag container -/

/-- C1: after every sequence of insert and erase operations on `ordered_tags`, no two stored
tags (at different positions of the sequenced index) have the same id, and inserting a tag
whose id equals the id of a stored tag is rejected and leaves the container unchanged. -/
theorem ordered_tags_unique_id (ops : List tags_op) :
    (∀ (i j : Nat) (hi : i < (tags_run ops).length) (hj : j < (tags_run ops).length),
        ((tags_run ops).get ⟨i, hi⟩).id = ((tags_run ops).get ⟨j, hj⟩).id → i = j) ∧
    (∀ tag : async_tag, (∃ t ∈ tags_run ops, t.id = tag.id) →
        ordered_tags.insert (tags_run ops) tag = (tags_run ops, false)) := by
  have hnodup : (tag_ids (tags_run ops)).Nodup :=
    tags_foldl_nodup ops [] (by simp [tag_ids])
  constructor
  · intro i j hi hj hid
    have hi2 : i < (tag_ids (tags_run ops)).length := by simpa [tag_ids] using hi
    have hj2 : j < (tag_ids (tags_run ops)).length := by simpa [tag_ids] using hj
    have hget : (tag_ids (tags_run ops)).get ⟨i, hi2⟩ = (tag_ids (tags_run ops)).get ⟨j, hj2⟩ := by
      simpa [tag_ids] using hid
    have := (List.Nodup.get_inj_iff hnodup).1 hget
    simpa using this
  · rintro tag ⟨t, ht, hid⟩
    have hc : ordered_tags.contains (tags_run ops) tag.id = true :=
      (ordered_tags.contains_iff _ _).2 (by
        unfold tag_ids
        exact List.mem_map.2 ⟨t, ht, hid⟩)
    simp [ordered_tags.insert, hc]

/-- C1, at a concrete run: a second tag with id 7 is refused after a tag with id 7 was
inserted, and the container keeps the first one only. -/
theorem ordered_tags_unique_id_witness :
    ordered_tags.insert
        (tags_run [tags_op.insert ⟨.blocks_by_account, .priority, 1, 1, 0, 8, 50, 20, 7⟩,
          tags_op.insert ⟨.frontiers, .frontiers, 0, 0, 0, 0, 60, 30, 9⟩,
          tags_op.erase 9])
        ⟨.blocks_by_hash, .database, 3, 0, 3, 4, 70, 40, 7⟩
      = (tags_run [tags_op.insert ⟨.blocks_by_account, .priority, 1, 1, 0, 8, 50, 20, 7⟩,
          tags_op.insert ⟨.frontiers, .frontiers, 0, 0, 0, 0, 60, 30, 9⟩,
          tags_op.erase 9], false) :=
  (ordered_tags_unique_id _).2 ⟨.blocks_by_hash, .database, 3, 0, 3, 4, 70, 40, 7⟩
    ⟨⟨.blocks_by_account, .priority, 1, 1, 0, 8, 50, 20, 7⟩, by decide, rfl⟩

/-! ## Properties of response verification -/

theorem linked_cons_succ (first b : block) (rest : List block) (i : Nat) :
    linked (first :: b :: rest) (i + 1) ↔ linked (b :: rest) i := by
  unfold linked
  constructor
  · intro h hlen
    have h2 : i + 1 + 1 < (first :: b :: rest).length := by
      simp only [List.length_cons] at hlen ⊢
      omega
    simpa using h h2
  · intro h hlen
    have h2 : i + 1 < (b :: rest).length := by
      simp only [List.length_cons] at hlen ⊢
      omega
    simpa using h h2

theorem linked_cons_zero (first b : block) (rest : List block) :
    linked (first :: b :: rest) 0 ↔ b.previous = first.hash := by
  unfold linked
  constructor
  · intro h
    simpa using h (by simp)
  · intro h _
    simpa using h

theorem makes_chain_iff (first : block) (rest : List block) :
    makes_chain first.hash rest = true ↔ ∀ i, linked (first :: rest) i := by
  induction rest generalizing first with
  | nil =>
    simp only [makes_chain, true_iff]
    intro i h
    simp at h
  | cons b rest ih =>
    unfold makes_chain
    by_cases hb : b.previous = first.hash
    · simp only [hb, bne_self_eq_false, Bool.false_eq_true, if_false]
      rw [ih b]
      constructor
      · intro h i
        cases i with
        | zero => exact (linked_cons_zero first b rest).2 hb
        | succ i => exact (linked_cons_succ first b rest i).2 (h i)
      · intro h i
        exact (linked_cons_succ first b rest i).1 (h (i + 1))
    · have hne : (b.previous != first.hash) = true := by simpa using hb
      simp only [hne, if_true, Bool.false_eq_true, false_iff]
      intro h
      exact hb ((linked_cons_zero first b rest).1 (h 0))

theorem verify_cons_eq (first : block) (rest : List block) (tag : async_tag) :
    verify (first :: rest) tag =
      if chains_from_start tag first = true ∧ makes_chain first.hash rest = true
      then verify_result.ok else verify_result.invalid := by
  unfold verify
  by_cases h1 : chains_from_start tag first = true <;>
    by_cases h2 : makes_chain first.hash rest = true <;> simp [h1, h2]

/-- C2: for every non-empty blocks payload and every tag, `verify` returns `invalid` if and
only if the first block does not chain from the tag's start or some consecutive pair
(i, i+1) is not linked (block i+1's `previous` is not the hash of block i); in particular a
two-block response [B1, B3] with B3.previous ≠ B1.hash is `invalid`. -/
theorem verify_invalid_iff (first : block) (rest : List block) (tag : async_tag) :
    (verify (first :: rest) tag = verify_result.invalid ↔
      (chains_from_start tag first = false ∨
        ∃ (i : Nat) (h : i + 1 < (first :: rest).length),
          ((first :: rest).get ⟨i + 1, h⟩).previous ≠
            ((first :: rest).get ⟨i, Nat.lt_of_succ_lt h⟩).hash)) ∧
    (∀ B1 B3 : block, B3.previous ≠ B1.hash →
      verify [B1, B3] tag = verify_result.invalid) := by
  constructor
  · rw [verify_cons_eq]
    have hchain := makes_chain_iff first rest
    constructor
    · intro h
      by_cases hs : chains_from_start tag first = true
      · right
        have hm : ¬ makes_chain first.hash rest = true := by
          intro hm
          simp [hs, hm] at h
        rw [hchain] at hm
        push_neg at hm
        obtain ⟨i, hi⟩ := hm
        unfold linked at hi
        push_neg at hi
        exact ⟨i, hi⟩
      · left
        simpa using hs
    · rintro (hs | ⟨i, hlen, hne⟩)
      · simp [hs]
      · have hm : ¬ makes_chain first.hash rest = true := by
          rw [hchain]
          intro hall
          exact hne (hall i hlen)
        simp [hm]
  · intro B1 B3 hne
    rw [verify_cons_eq]
    have hm : ¬ makes_chain B1.hash [B3] = true := by
      rw [makes_chain_iff]
      intro hall
      exact hne ((linked_cons_zero B1 B3 []).1 (hall 0))
    simp [hm]

/-- C2, at a concrete response: [B1, B3] requested by account 5, where B3 names hash 12 as
its predecessor while B1 has hash 11, is classified `invalid`. -/
theorem verify_invalid_iff_witness :
    verify [⟨11, 10, 5⟩, ⟨13, 12, 5⟩]
      ⟨.blocks_by_account, .priority, 5, 5, 0, 8, 50, 20, 7⟩ = verify_result.invalid :=
  (verify_invalid_iff ⟨11, 10, 5⟩ [] ⟨.blocks_by_account, .priority, 5, 5, 0, 8, 50, 20, 7⟩).2
    ⟨11, 10, 5⟩ ⟨13, 12, 5⟩ (by decide)

/-- C3: for every tag, `verify` returns `nothing_new` on the empty payload; on every
non-empty payload it returns `ok` or `invalid`; and it returns `ok` exactly when the payload
is non-empty and not invalid, that is when the first block chains from the tag's start and
every consecutive pair is linked. -/
theorem verify_classification (tag : async_tag) :
    verify [] tag = verify_result.nothing_new ∧
    (∀ (first : block) (rest : List block),
      (verify (first :: rest) tag = verify_result.ok ∨
        verify (first :: rest) tag = verify_result.invalid) ∧
      verify (first :: rest) tag ≠ verify_result.nothing_new) ∧
    (∀ blocks : List block,
      (verify blocks tag = verify_result.ok ↔
        blocks ≠ [] ∧ verify blocks tag ≠ verify_result.invalid) ∧
      (verify blocks tag = verify_result.ok ↔
        ∃ first rest, blocks = first :: rest ∧ chains_from_start tag first = true ∧
          ∀ i, linked blocks i)) := by
  refine ⟨rfl, ?_, ?_⟩
  · intro first rest
    rw [verify_cons_eq]
    by_cases h : chains_from_start tag first = true ∧ makes_chain first.hash rest = true
    · simp [h]
    · simp [h]
  · intro blocks
    cases blocks with
    | nil =>
      constructor
      · simp [verify]
      · simp [verify]
    | cons first rest =>
      constructor
      · rw [verify_cons_eq]
        by_cases h : chains_from_start tag first = true ∧ makes_chain first.hash rest = true
        · simp [h]
        · simp [h]
      · rw [verify_cons_eq]
        constructor
        · intro h
          by_cases hc : chains_from_start tag first = true ∧ makes_chain first.hash rest = true
          · exact ⟨first, rest, rfl, hc.1, (makes_chain_iff first rest).1 hc.2⟩
          · simp [hc] at h
        · rintro ⟨f, r, heq, hs, hall⟩
          obtain ⟨rfl, rfl⟩ := List.cons_eq_cons.1 heq
          have hm := (makes_chain_iff first rest).2 hall
          simp [hs, hm]

theorem ascending_from_chain (previous : Nat) (l : List (Nat × Nat))
    (h : ascending_from previous l = true) :
    List.Chain (fun a b : Nat => a < b) previous (l.map Prod.fst) := by
  induction l generalizing previous with
  | nil => exact List.Chain.nil
  | cons f rest ih =>
    unfold ascending_from at h
    by_cases hle : f.1 ≤ previous
    · simp [hle] at h
    · simp only [hle, if_false] at h
      exact List.Chain.cons (Nat.lt_of_not_le hle) (ih f.1 h)

theorem verify_frontiers_pairwise (response : List (Nat × Nat)) (tag : async_tag)
    (h : verify_frontiers response tag = verify_result.ok) :
    List.Pairwise (fun a b : Nat => a < b) (response.map Prod.fst) ∧
      ∀ f ∈ response, tag.start ≤ f.1 := by
  cases response with
  | nil => simp
  | cons first rest =>
    unfold verify_frontiers at h
    by_cases hs : first.1 < tag.start
    · simp [hs] at h
    · by_cases ha : ascending_from first.1 rest = true
      · have hp : List.Pairwise (fun a b : Nat => a < b) (first.1 :: rest.map Prod.fst) :=
          List.chain_iff_pairwise.1 (ascending_from_chain first.1 rest ha)
        refine ⟨by simpa using hp, ?_⟩
        intro f hf
        rcases List.mem_cons.1 hf with rfl | hmem
        · exact Nat.le_of_not_lt hs
        · have hlt : first.1 < f.1 :=
            (List.pairwise_cons.1 hp).1 f.1 (List.mem_map.2 ⟨f, hmem, rfl⟩)
          omega
      · simp [hs, ha] at h

/-- C4: `verify` accepts (returns `ok` for) a frontiers payload only if the accounts of
consecutive entries are strictly increasing and every account in it is at least the tag's
start; so a payload with a repeated account, an out-of-order account (an earlier entry whose
account is not below a later entry's) or an account below the tag's start is not accepted. -/
theorem verify_frontiers_accepts (response : List (Nat × Nat)) (tag : async_tag) :
    (verify_frontiers response tag = verify_result.ok →
      (∀ (i : Nat) (h : i + 1 < response.length),
        (response.get ⟨i, Nat.lt_of_succ_lt h⟩).1 < (response.get ⟨i + 1, h⟩).1) ∧
      (∀ f ∈ response, tag.start ≤ f.1)) ∧
    (((∃ (i j : Nat) (hi : i < response.length) (hj : j < response.length),
          i < j ∧ (response.get ⟨j, hj⟩).1 ≤ (response.get ⟨i, hi⟩).1) ∨
        (∃ f ∈ response, f.1 < tag.start)) →
      verify_frontiers response tag ≠ verify_result.ok) := by
  have key : verify_frontiers response tag = verify_result.ok →
      ∀ (i j : Nat) (hi : i < response.length) (hj : j < response.length),
        i < j → (response.get ⟨i, hi⟩).1 < (response.get ⟨j, hj⟩).1 := by
    intro h i j hi hj hij
    have hp := (verify_frontiers_pairwise response tag h).1
    rw [List.pairwise_iff_get] at hp
    have := hp ⟨i, by simpa using hi⟩ ⟨j, by simpa using hj⟩ hij
    simpa using this
  constructor
  · intro h
    refine ⟨?_, (verify_frontiers_pairwise response tag h).2⟩
    intro i hlen
    exact key h i (i + 1) (Nat.lt_of_succ_lt hlen) hlen (Nat.lt_succ_self i)
  · rintro (⟨i, j, hi, hj, hij, hle⟩ | ⟨f, hf, hlt⟩) h
    · have := key h i j hi hj hij
      omega
    · have := (verify_frontiers_pairwise response tag h).2 f hf
      omega

/-- C4, at concrete payloads: in an accepted payload of three rising accounts from start 4
the second account is below the third and the third is at or above 4, and a payload that
repeats account 6 is refused. -/
theorem verify_frontiers_accepts_witness :
    ((6 : Nat) < 9 ∧ (4 : Nat) ≤ 9) ∧
    verify_frontiers [(4, 40), (6, 60), (6, 61)]
      ⟨.frontiers, .frontiers, 4, 0, 0, 0, 60, 30, 9⟩ ≠ verify_result.ok :=
  ⟨⟨((verify_frontiers_accepts [(4, 40), (6, 60), (9, 90)]
        ⟨.frontiers, .frontiers, 4, 0, 0, 0, 60, 30, 9⟩).1 (by decide)).1 1 (by decide),
      ((verify_frontiers_accepts [(4, 40), (6, 60), (9, 90)]
        ⟨.frontiers, .frontiers, 4, 0, 0, 0, 60, 30, 9⟩).1 (by decide)).2 (9, 90) (by decide)⟩,
    (verify_frontiers_accepts [(4, 40), (6, 60), (6, 61)]
      ⟨.frontiers, .frontiers, 4, 0, 0, 0, 60, 30, 9⟩).2
      (Or.inl ⟨1, 2, by decide, by decide, by decide, by decide⟩)⟩

/-! ## Properties of peer scoring -/

theorem uint64_sub_one (a : Nat) (h0 : 0 < a) (h : a < 2 ^ 64) : uint64_sub a 1 = a - 1 := by
  unfold uint64_sub
  norm_num at h ⊢
  omega

theorem decay_outstanding (s : peer_score) (h : s.outstanding < 2 ^ 64) :
    s.decay.outstanding = s.outstanding - 1 := by
  unfold peer_score.decay
  by_cases h0 : s.outstanding > 0
  · simp only [h0, if_true]
    exact uint64_sub_one _ h0 h
  · simp only [h0, if_false]
    omega

theorem decay_iterate (k : Nat) (s : peer_score) (h : s.outstanding < 2 ^ 64) :
    (peer_score.decay^[k] s).outstanding = s.outstanding - k ∧
    (peer_score.decay^[k] s).request_count_total = s.request_count_total ∧
    (peer_score.decay^[k] s).response_count_total = s.response_count_total ∧
    (peer_score.decay^[k] s).channel_ptr = s.channel_ptr := by
  induction k generalizing s with
  | zero => simp
  | succ k ih =>
    rw [Function.iterate_succ_apply]
    have hd := decay_outstanding s h
    have hlt : s.decay.outstanding < 2 ^ 64 := by omega
    obtain ⟨h1, h2, h3, h4⟩ := ih s.decay hlt
    refine ⟨?_, ?_, ?_, ?_⟩
    · rw [h1, hd]
      omega
    · rw [h2]
      rfl
    · rw [h3]
      rfl
    · rw [h4]
      rfl

/-- C6: for a score whose `outstanding` is a 64-bit value, `decay` lowers `outstanding` by
exactly one when it is positive and leaves it at zero when it is zero, without wrapping
around; `k` successive decays of a score with `outstanding = n` leave
`outstanding = max (n - k, 0)`, and `request_count_total` and `response_count_total` are
unchanged. -/
theorem decay_saturates (s : peer_score) (h : s.outstanding < 2 ^ 64) :
    (0 < s.outstanding → s.decay.outstanding + 1 = s.outstanding) ∧
    (s.outstanding = 0 → s.decay.outstanding = 0) ∧
    s.decay.outstanding ≤ s.outstanding ∧
    (∀ k : Nat, ((peer_score.decay^[k] s).outstanding : Int) =
        max ((s.outstanding : Int) - (k : Int)) 0) ∧
    (∀ k : Nat, (peer_score.decay^[k] s).request_count_total = s.request_count_total ∧
        (peer_score.decay^[k] s).response_count_total = s.response_count_total) := by
  have hd := decay_outstanding s h
  refine ⟨?_, ?_, ?_, ?_, ?_⟩
  · intro h0
    omega
  · intro h0
    omega
  · omega
  · intro k
    rw [(decay_iterate k s h).1]
    omega
  · intro k
    exact ⟨(decay_iterate k s h).2.1, (decay_iterate k s h).2.2.1⟩

/-- C6, at a concrete score: three decays of a score with two outstanding requests leave
zero outstanding and keep both totals. -/
theorem decay_saturates_witness :
    ((peer_score.decay^[3] ⟨1, 2, 9, 7⟩).outstanding : Int) = max ((2 : Int) - 3) 0 ∧
    (peer_score.decay^[3] ⟨1, 2, 9, 7⟩).request_count_total = 9 ∧
    (peer_score.decay^[3] ⟨1, 2, 9, 7⟩).response_count_total = 7 :=
  ⟨(decay_saturates ⟨1, 2, 9, 7⟩ (by decide)).2.2.2.1 3,
    ((decay_saturates ⟨1, 2, 9, 7⟩ (by decide)).2.2.2.2 3).1,
    ((decay_saturates ⟨1, 2, 9, 7⟩ (by decide)).2.2.2.2 3).2⟩

theorem prioritized_iff (s : account_sets) (x : Nat) :
    s.prioritized x = true ↔ ∃ e ∈ s.priorities, e.account = x := by
  simp [account_sets.prioritized]

theorem find_priority_some (s : account_sets) (a : Nat) (e : priority_entry)
    (h : s.find_priority a = some e) : e ∈ s.priorities ∧ e.account = a := by
  unfold account_sets.find_priority at h
  exact ⟨List.mem_of_find?_eq_some h, by simpa using List.find?_some h⟩

theorem find_blocking_some (s : account_sets) (a : Nat) (b : blocking_entry)
    (h : s.find_blocking a = some b) : b ∈ s.blocking ∧ b.original.account = a := by
  unfold account_sets.find_blocking at h
  exact ⟨List.mem_of_find?_eq_some h, by simpa using List.find?_some h⟩

theorem mem_erase_priority (l : List priority_entry) (a : Nat) (e : priority_entry) :
    e ∈ account_sets.erase_priority l a ↔ e ∈ l ∧ e.account ≠ a := by
  simp [account_sets.erase_priority]

theorem mem_erase_blocking (l : List blocking_entry) (a : Nat) (b : blocking_entry) :
    b ∈ account_sets.erase_blocking l a ↔ b ∈ l ∧ b.original.account ≠ a := by
  simp [account_sets.erase_blocking]

theorem mem_evict_priority (capacity : Nat) (l : List priority_entry) (e : priority_entry)
    (h : e ∈ account_sets.evict_priority capacity l) : e ∈ l := by
  unfold account_sets.evict_priority at h
  by_cases hc : l.length > capacity
  · rw [if_pos hc] at h
    cases hv : account_sets.victim_priority l with
    | none =>
      rw [hv] at h
      exact h
    | some v =>
      rw [hv] at h
      exact ((mem_erase_priority _ _ _).1 h).1
  · rw [if_neg hc] at h
    exact h

theorem mem_evict_blocking (capacity : Nat) (l : List blocking_entry) (b : blocking_entry)
    (h : b ∈ account_sets.evict_blocking capacity l) : b ∈ l := by
  unfold account_sets.evict_blocking at h
  by_cases hc : l.length > capacity
  · rw [if_pos hc] at h
    cases hv : account_sets.victim_blocking l with
    | none =>
      rw [hv] at h
      exact h
    | some v =>
      rw [hv] at h
      exact ((mem_erase_blocking _ _ _).1 h).1
  · rw [if_neg hc] at h
    exact h

theorem prioritized_erase_self (s : account_sets) (a : Nat) :
    ({ s with priorities := account_sets.erase_priority s.priorities a } : account_sets).prioritized a
      = false := by
  rw [Bool.eq_false_iff]
  intro hp
  obtain ⟨e, he, hea⟩ := (prioritized_iff _ a).1 hp
  exact ((mem_erase_priority _ _ _).1 he).2 hea

theorem find_map_update (l : List priority_entry) (a : Nat) (e : priority_entry)
    (f : priority_entry → priority_entry) (hf : ∀ x, (f x).account = x.account)
    (h : List.find? (fun x => x.account == a) l = some e) :
    List.find? (fun x => x.account == a)
      (l.map (fun x => if x.account == a then f x else x)) = some (f e) := by
  induction l with
  | nil => simp at h
  | cons x rest ih =>
    by_cases hx : (x.account == a) = true
    · have hxe : x = e := by
        simpa [List.find?, hx] using h
      subst hxe
      have hfx : ((f x).account == a) = true := by
        rw [hf x]
        exact hx
      simp [List.find?, hx, hfx]
    · have hx2 : (x.account == a) = false := by simpa using hx
      have hrest : List.find? (fun x => x.account == a) rest = some e := by
        simpa [List.find?, hx2] using h
      simp only [List.map_cons, hx2, Bool.false_eq_true, if_false, List.find?]
      exact ih hrest

/-- What `priority_down` does to the account it is applied to: the account stays exactly
when the new priority is at least the cutoff and the incremented counter is below
`max_fails`, and the entry it leaves carries the new priority and the new counter. -/
theorem priority_down_outcome (cfg : account_sets_config) (s : account_sets)
    (account : Nat) (e : priority_entry) (hfind : s.find_priority account = some e) :
    ((s.priority_down cfg account).prioritized account = true ↔
      (cfg.priority_cutoff ≤ e.priority * cfg.priority_decrease ∧
        e.fails + 1 < cfg.max_fails)) ∧
    (∀ e2 : priority_entry, (s.priority_down cfg account).find_priority account = some e2 →
      e2.priority = e.priority * cfg.priority_decrease ∧ e2.fails = e.fails + 1 ∧
        cfg.priority_cutoff ≤ e2.priority) := by
  have herased : (({ s with priorities := account_sets.erase_priority s.priorities account } :
      account_sets).find_priority account) = none := by
    unfold account_sets.find_priority
    rw [List.find?_eq_none]
    intro x hx
    have := ((mem_erase_priority _ _ _).1 hx).2
    simpa using this
  unfold account_sets.priority_down
  rw [hfind]
  simp only
  by_cases hcut : e.priority * cfg.priority_decrease < cfg.priority_cutoff
  · simp only [hcut, if_true]
    refine ⟨?_, ?_⟩
    · rw [prioritized_erase_self]
      constructor
      · intro h
        exact absurd h (by simp)
      · rintro ⟨hle, _⟩
        exact absurd hcut (not_lt.2 hle)
    · intro e2 he2
      rw [herased] at he2
      exact absurd he2 (by simp)
  · simp only [hcut, if_false]
    by_cases hfails : e.fails + 1 ≥ cfg.max_fails
    · simp only [hfails, if_true]
      refine ⟨?_, ?_⟩
      · rw [prioritized_erase_self]
        constructor
        · intro h
          exact absurd h (by simp)
        · rintro ⟨_, hlt⟩
          omega
      · intro e2 he2
        rw [herased] at he2
        exact absurd he2 (by simp)
    · simp only [hfails, if_false]
      have hfound := find_map_update s.priorities account e
        (fun x => { x with priority := e.priority * cfg.priority_decrease, fails := e.fails + 1 })
        (fun _ => rfl) hfind
      refine ⟨?_, ?_⟩
      · constructor
        · intro _
          exact ⟨not_lt.1 hcut, by omega⟩
        · intro _
          rw [prioritized_iff]
          have hm := List.mem_of_find?_eq_some hfound
          exact ⟨_, hm, (find_priority_some s account e hfind).2⟩
      · intro e2 he2
        unfold account_sets.find_priority at he2
        simp only at he2
        rw [hfound] at he2
        have := Option.some.inj he2
        subst this
        exact ⟨rfl, rfl, not_lt.1 hcut⟩

/-- A property of entries that fresh entries have and that raising and lowering keep is
kept by every call, for the entries of the priority set and for the entries that moved to
the blocking set. -/
theorem account_sets_step_entries (cfg : account_sets_config) (P : priority_entry → Prop)
    (s : account_sets) (op : account_sets_op)
    (hfresh : ∀ a : Nat, P ⟨a, cfg.priority_initial, 0, 0⟩)
    (hset : ∀ (a : Nat) (v : ℚ), op = account_sets_op.priority_set a v → P ⟨a, v, 0, 0⟩)
    (hup : ∀ x : priority_entry, P x →
      P { x with priority := min (x.priority * cfg.priority_increase) cfg.priority_max })
    (hdown : ∀ e x : priority_entry, P x →
      ¬ (e.priority * cfg.priority_decrease < cfg.priority_cutoff) →
      ¬ (e.fails + 1 ≥ cfg.max_fails) →
      P { x with priority := e.priority * cfg.priority_decrease, fails := e.fails + 1 })
    (h : (∀ e ∈ s.priorities, P e) ∧ (∀ b ∈ s.blocking, P b.original)) :
    (∀ e ∈ (account_sets_step cfg s op).priorities, P e) ∧
      (∀ b ∈ (account_sets_step cfg s op).blocking, P b.original) := by
  obtain ⟨hp, hb⟩ := h
  cases op with
  | priority_up a =>
    simp only [account_sets_step]
    unfold account_sets.priority_up
    by_cases hc : s.prioritized a = true
    · simp only [hc, if_true]
      refine ⟨?_, hb⟩
      intro e he
      simp only [List.mem_map] at he
      obtain ⟨e0, he0, rfl⟩ := he
      by_cases hm : (e0.account == a) = true
      · simp only [hm, if_true]
        exact hup e0 (hp e0 he0)
      · simp only [hm, Bool.false_eq_true, if_false]
        exact hp e0 he0
    · simp only [hc, Bool.false_eq_true, if_false]
      refine ⟨?_, hb⟩
      intro e he
      have hmem := mem_evict_priority _ _ e he
      simp only [List.mem_append, List.mem_singleton] at hmem
      rcases hmem with hmem | rfl
      · exact hp e hmem
      · exact hfresh a
  | priority_down a =>
    simp only [account_sets_step]
    unfold account_sets.priority_down
    cases hf : s.find_priority a with
    | none => exact ⟨hp, hb⟩
    | some e =>
      simp only
      have herase : ∀ x ∈ account_sets.erase_priority s.priorities a, P x :=
        fun x hx => hp x ((mem_erase_priority _ _ _).1 hx).1
      split_ifs with hcut hfails
      · exact ⟨herase, hb⟩
      · exact ⟨herase, hb⟩
      · refine ⟨?_, hb⟩
        intro x hx
        simp only [List.mem_map] at hx
        obtain ⟨x0, hx0, rfl⟩ := hx
        by_cases hm : (x0.account == a) = true
        · simp only [hm, if_true]
          exact hdown e x0 (hp x0 hx0) hcut hfails
        · simp only [hm, Bool.false_eq_true, if_false]
          exact hp x0 hx0
  | priority_set a v =>
    simp only [account_sets_step]
    unfold account_sets.priority_set
    by_cases hc : (s.blocked a || s.prioritized a) = true
    · simp only [hc, if_true]
      exact ⟨hp, hb⟩
    · simp only [hc, Bool.false_eq_true, if_false]
      refine ⟨?_, hb⟩
      intro e he
      have hmem := mem_evict_priority _ _ e he
      simp only [List.mem_append, List.mem_singleton] at hmem
      rcases hmem with hmem | rfl
      · exact hp e hmem
      · exact hset a v rfl
  | block a d =>
    simp only [account_sets_step]
    unfold account_sets.block
    simp only
    refine ⟨fun x hx => hp x ((mem_erase_priority _ _ _).1 hx).1, ?_⟩
    intro b hbm
    have hmem := mem_evict_blocking _ _ b hbm
    simp only [List.mem_append, List.mem_singleton] at hmem
    rcases hmem with hmem | rfl
    · exact hb b ((mem_erase_blocking _ _ _).1 hmem).1
    · simp only
      cases hf : s.find_priority a with
      | some e1 => exact hp e1 (find_priority_some s a e1 hf).1
      | none =>
        cases hg : s.find_blocking a with
        | some b1 => exact hb b1 (find_blocking_some s a b1 hg).1
        | none => exact hfresh a
  | unblock a hash =>
    simp only [account_sets_step]
    unfold account_sets.unblock
    cases hf : s.find_blocking a with
    | none => exact ⟨hp, hb⟩
    | some existing =>
      simp only
      have hkeep : ∀ b ∈ account_sets.erase_blocking s.blocking a, P b.original :=
        fun b hbm => hb b ((mem_erase_blocking _ _ _).1 hbm).1
      split_ifs with hc hpr
      · exact ⟨hp, hkeep⟩
      · refine ⟨?_, hkeep⟩
        intro e he
        have hmem := mem_evict_priority _ _ e he
        simp only [List.mem_append, List.mem_singleton] at hmem
        rcases hmem with hmem | rfl
        · exact hp e hmem
        · exact hb existing (find_blocking_some s a existing hf).1
      · exact ⟨hp, hb⟩

theorem account_sets_foldl_entries (cfg : account_sets_config) (P : priority_entry → Prop)
    (hfresh : ∀ a : Nat, P ⟨a, cfg.priority_initial, 0, 0⟩)
    (hup : ∀ x : priority_entry, P x →
      P { x with priority := min (x.priority * cfg.priority_increase) cfg.priority_max })
    (hdown : ∀ e x : priority_entry, P x →
      ¬ (e.priority * cfg.priority_decrease < cfg.priority_cutoff) →
      ¬ (e.fails + 1 ≥ cfg.max_fails) →
      P { x with priority := e.priority * cfg.priority_decrease, fails := e.fails + 1 })
    (ops : List account_sets_op)
    (hset : ∀ (a : Nat) (v : ℚ), account_sets_op.priority_set a v ∈ ops → P ⟨a, v, 0, 0⟩)
    (s : account_sets)
    (h : (∀ e ∈ s.priorities, P e) ∧ (∀ b ∈ s.blocking, P b.original)) :
    (∀ e ∈ (ops.foldl (account_sets_step cfg) s).priorities, P e) ∧
      (∀ b ∈ (ops.foldl (account_sets_step cfg) s).blocking, P b.original) := by
  induction ops generalizing s with
  | nil => exact h
  | cons op rest ih =>
    simp only [List.foldl_cons]
    apply ih
    · intro a v hm
      exact hset a v (List.mem_cons_of_mem _ hm)
    · apply account_sets_step_entries cfg P s op hfresh _ hup hdown h
      intro a v hop
      exact hset a v (by rw [hop]; exact List.mem_cons_self _ _)

/-- C9, as the account sets behave: after `priority_down` on an account of the priority set,
the account is still in the set if and only if its new priority is at least
`priority_cutoff` and its incremented `fails` counter is below `max_fails`; it is erased
otherwise, and an entry that `priority_down` leaves in the set carries the new priority.
Consequently, under a policy with `0 ≤ priority_cutoff ≤ priority_initial`,
`priority_cutoff ≤ priority_max` and `priority_increase ≥ 1`, and with `priority_set` given
values at or above the cutoff, every account held in the priority set after any sequence of
calls from empty sets has priority at least `priority_cutoff`. -/
theorem priority_down_retention (cfg : account_sets_config) :
    (∀ (s : account_sets) (account : Nat) (e : priority_entry),
      s.find_priority account = some e →
      ((s.priority_down cfg account).prioritized account = true ↔
        (cfg.priority_cutoff ≤ e.priority * cfg.priority_decrease ∧
          e.fails + 1 < cfg.max_fails)) ∧
      (∀ e2 : priority_entry,
        (s.priority_down cfg account).find_priority account = some e2 →
        e2.priority = e.priority * cfg.priority_decrease ∧ e2.fails = e.fails + 1 ∧
          cfg.priority_cutoff ≤ e2.priority)) ∧
    (0 ≤ cfg.priority_cutoff → cfg.priority_cutoff ≤ cfg.priority_initial →
      cfg.priority_cutoff ≤ cfg.priority_max → 1 ≤ cfg.priority_increase →
      ∀ ops : List account_sets_op, (∀ op ∈ ops, op.value_in_range cfg) →
      ∀ x ∈ (account_sets_run cfg ops).priorities, cfg.priority_cutoff ≤ x.priority) := by
  refine ⟨fun s account e hfind => priority_down_outcome cfg s account e hfind, ?_⟩
  intro h0 hinit hmax hinc ops hops
  have h := account_sets_foldl_entries cfg (fun e => cfg.priority_cutoff ≤ e.priority)
    (fun _ => hinit)
    (fun x hx => le_min
      (le_trans hx (le_mul_of_one_le_right (le_trans h0 hx) hinc)) hmax)
    (fun e _ _ hcut _ => not_lt.1 hcut) ops
    (fun a v hm => hops _ hm) account_sets.empty
    ⟨by simp [account_sets.empty], by simp [account_sets.empty]⟩
  exact h.1

/-- C9, at concrete input: account 5 with priority 16 and no failure stays in the set after
`priority_down`; and the entry that the run `priority_set 5 16`, `priority_down 5` holds,
priority 8, is at least the cutoff 1. -/
theorem priority_down_retention_witness :
    ((account_sets.priority_down sample_config ⟨[⟨5, 16, 0, 0⟩], []⟩ 5).prioritized 5 = true ↔
      (sample_config.priority_cutoff ≤ (16 : ℚ) * sample_config.priority_decrease ∧
        0 + 1 < sample_config.max_fails)) ∧
    (⟨5, 8, 1, 0⟩ : priority_entry) ∈ (account_sets_run sample_config
        [account_sets_op.priority_set 5 16, account_sets_op.priority_down 5]).priorities ∧
    sample_config.priority_cutoff ≤ (⟨5, 8, 1, 0⟩ : priority_entry).priority :=
  have hmem : (⟨5, 8, 1, 0⟩ : priority_entry) ∈ (account_sets_run sample_config
      [account_sets_op.priority_set 5 16, account_sets_op.priority_down 5]).priorities := by
    simp [account_sets_run, account_sets_step, account_sets.priority_set,
      account_sets.priority_down, account_sets.find_priority, account_sets.empty,
      account_sets.blocked, account_sets.prioritized, account_sets.evict_priority,
      sample_config]
    norm_num
  ⟨((priority_down_retention sample_config).1 ⟨[⟨5, 16, 0, 0⟩], []⟩ 5 ⟨5, 16, 0, 0⟩ rfl).1,
    hmem,
    (priority_down_retention sample_config).2
      (by norm_num [sample_config]) (by norm_num [sample_config])
      (by norm_num [sample_config]) (by norm_num [sample_config])
      [account_sets_op.priority_set 5 16, account_sets_op.priority_down 5]
      (by
        intro op hop
        simp only [List.mem_cons, List.mem_singleton, List.not_mem_nil, or_false] at hop
        rcases hop with rfl | rfl
        · simp only [account_sets_op.value_in_range]
          norm_num [sample_config]
        · simp only [account_sets_op.value_in_range])
      ⟨5, 8, 1, 0⟩ hmem⟩

/-- C9 fails as stated. Under `sample_config`, account 5 reaches priority 8 with one failure
by `priority_set` and one `priority_down`; the next `priority_down` gives it the new
priority 4, which is at least the cutoff 1, and yet erases it, because the second failure
reaches `max_fails`. -/
theorem priority_down_retention_counterexample :
    account_sets_run sample_config
        [account_sets_op.priority_set 5 16, account_sets_op.priority_down 5]
      = ⟨[⟨5, 8, 1, 0⟩], []⟩ ∧
    sample_config.priority_cutoff ≤ (8 : ℚ) * sample_config.priority_decrease ∧
    (account_sets.priority_down sample_config ⟨[⟨5, 8, 1, 0⟩], []⟩ 5).prioritized 5 = false := by
  refine ⟨?_, ?_, ?_⟩
  · simp [account_sets_run, account_sets_step, account_sets.priority_set,
      account_sets.priority_down, account_sets.find_priority, account_sets.empty,
      account_sets.blocked, account_sets.prioritized, account_sets.evict_priority,
      sample_config]
    norm_num
  · norm_num [sample_config]
  · simp [account_sets.priority_down, account_sets.find_priority, account_sets.prioritized,
      account_sets.erase_priority, sample_config]

/-- C14, as the header defines tags: every tag has a type that is one of `invalid`,
`blocks_by_hash`, `blocks_by_account`, `account_info_by_hash`, `frontiers` and a source that
is one of `invalid`, `priority`, `database`, `dependencies`, `frontiers`; a
default-constructed tag has type `invalid` and source `invalid`. -/
theorem async_tag_type_source (tag : async_tag) (now id : Nat) :
    (tag.type = query_type.invalid ∨ tag.type = query_type.blocks_by_hash ∨
      tag.type = query_type.blocks_by_account ∨ tag.type = query_type.account_info_by_hash ∨
      tag.type = query_type.frontiers) ∧
    (tag.source = query_source.invalid ∨ tag.source = query_source.priority ∨
      tag.source = query_source.database ∨ tag.source = query_source.dependencies ∨
      tag.source = query_source.frontiers) ∧
    (async_tag.default_constructed now id).type = query_type.invalid ∧
    (async_tag.default_constructed now id).source = query_source.invalid := by
  refine ⟨?_, ?_, rfl, rfl⟩
  · cases tag.type <;> simp
  · cases tag.source <;> simp

/-- C14 fails as stated: the type of a default-constructed tag is none of `blocks_by_hash`,
`blocks_by_account`, `account_info_by_hash`, `frontiers`, and its source is none of
`priority`, `database`, `dependencies`, `frontiers`. -/
theorem async_tag_type_source_counterexample :
    ¬ ((async_tag.default_constructed 0 1).type = query_type.blocks_by_hash ∨
        (async_tag.default_constructed 0 1).type = query_type.blocks_by_account ∨
        (async_tag.default_constructed 0 1).type = query_type.account_info_by_hash ∨
        (async_tag.default_constructed 0 1).type = query_type.frontiers) ∧
    ¬ ((async_tag.default_constructed 0 1).source = query_source.priority ∨
        (async_tag.default_constructed 0 1).source = query_source.database ∨
        (async_tag.default_constructed 0 1).source = query_source.dependencies ∨
        (async_tag.default_constructed 0 1).source = query_source.frontiers) := by
  constructor <;> decide

/-- C11: for every block and every status other than `progress`, `gap_source`,
`gap_previous`, `old` and `fork`, that is for `bad_signature`, `negative_spend`,
`unreceivable`, `gap_epoch_open_pending`, `opened_burn_account`, `balance_mismatch`,
`representative_mismatch`, `block_position` and `insufficient_work`, the inspector leaves the
priority set and the blocking set unchanged. -/
theorem inspect_no_effect (cfg : account_sets_config) (accounts : account_sets)
    (result : block_status) (b : processed_block)
    (h : result ≠ block_status.progress ∧ result ≠ block_status.gap_source ∧
      result ≠ block_status.gap_previous ∧ result ≠ block_status.old ∧
      result ≠ block_status.fork) :
    result ∈ [block_status.bad_signature, block_status.negative_spend,
        block_status.unreceivable, block_status.gap_epoch_open_pending,
        block_status.opened_burn_account, block_status.balance_mismatch,
        block_status.representative_mismatch, block_status.block_position,
        block_status.insufficient_work] ∧
    (inspect cfg accounts result b).priorities = accounts.priorities ∧
    (inspect cfg accounts result b).blocking = accounts.blocking := by
  obtain ⟨h1, h2, h3, h4, h5⟩ := h
  cases result <;> first
    | exact absurd rfl h1
    | exact absurd rfl h2
    | exact absurd rfl h3
    | exact absurd rfl h4
    | exact absurd rfl h5
    | exact ⟨by decide, rfl, rfl⟩

/-- C11, at a concrete block: a block reported as `balance_mismatch` leaves account sets with
one prioritised and one blocked account as they are. -/
theorem inspect_no_effect_witness :
    (inspect sample_config ⟨[⟨6, 4, 0, 0⟩], [⟨⟨5, 8, 1, 0⟩, 77⟩]⟩ block_status.balance_mismatch
        ⟨6, 77, 76, 0⟩).priorities = [⟨6, 4, 0, 0⟩] ∧
    (inspect sample_config ⟨[⟨6, 4, 0, 0⟩], [⟨⟨5, 8, 1, 0⟩, 77⟩]⟩ block_status.balance_mismatch
        ⟨6, 77, 76, 0⟩).blocking = [⟨⟨5, 8, 1, 0⟩, 77⟩] :=
  (inspect_no_effect sample_config ⟨[⟨6, 4, 0, 0⟩], [⟨⟨5, 8, 1, 0⟩, 77⟩]⟩
    block_status.balance_mismatch ⟨6, 77, 76, 0⟩ (by decide)).2

/-! ## Properties of the scheduler component and of the transport -/

/-- C16: `inproc::channel::send_impl` returns `true` for every message, traffic type and
callback, present or absent, whatever the deserialiser reports; when the deserialiser
reports an error or yields no message, nothing is handed to the destination's inbound
handler, and otherwise exactly the deserialised message is. -/
theorem send_impl_never_fails (to_bytes : transport.message → List Nat)
    (read : List Nat → transport.read_result) (msg : transport.message)
    (traffic_type : Nat) (callback : Option Nat) :
    (transport.inproc.channel.send_impl to_bytes read msg traffic_type callback).1 = true ∧
    (((read (to_bytes msg)).ec = true ∨ (read (to_bytes msg)).message = none) →
      (transport.inproc.channel.send_impl to_bytes read msg traffic_type callback).2.inbound
        = []) ∧
    (∀ m : transport.message,
      (read (to_bytes msg)).ec = false → (read (to_bytes msg)).message = some m →
      (transport.inproc.channel.send_impl to_bytes read msg traffic_type callback).2.inbound
        = [m]) := by
  refine ⟨rfl, ?_, ?_⟩
  · intro h
    unfold transport.inproc.channel.send_impl
    rcases h with h | h
    · simp [h]
    · simp [h]
  · intro m hec hm
    unfold transport.inproc.channel.send_impl
    simp [hec, hm]

/-- C16, at a concrete call: a message whose deserialisation reports an error, sent without a
callback, is not delivered, and the call still returns `true`. -/
theorem send_impl_never_fails_witness :
    (transport.inproc.channel.send_impl (fun m => m.content) (fun _ => ⟨true, none⟩)
        ⟨3, [1, 2]⟩ 0 none).1 = true ∧
    (transport.inproc.channel.send_impl (fun m => m.content) (fun _ => ⟨true, none⟩)
        ⟨3, [1, 2]⟩ 0 none).2.inbound = [] :=
  ⟨(send_impl_never_fails (fun m => m.content) (fun _ => ⟨true, none⟩) ⟨3, [1, 2]⟩ 0 none).1,
    (send_impl_never_fails (fun m => m.content) (fun _ => ⟨true, none⟩) ⟨3, [1, 2]⟩ 0
      none).2.1 (Or.inl rfl)⟩

/-- C17: `tcp_channels::check` returns `true` if and only if the container is not stopped,
`not_a_peer` does not reject the endpoint, and no channel has both the same IP address as
the endpoint and the same node id; hence a container whose channels each differ from the
request in IP address or in node id holds no duplicate. -/
theorem check_iff (not_a_peer : transport.tcp_endpoint → Bool → Bool)
    (is_same_ip : Nat → Nat → Bool) (allow_local_peers : Bool) (c : transport.tcp_channels)
    (endpoint : transport.tcp_endpoint) (node_id : Nat) :
    (transport.tcp_channels.check not_a_peer is_same_ip allow_local_peers c endpoint node_id
        = true ↔
      (c.stopped = false ∧ not_a_peer endpoint allow_local_peers = false ∧
        ¬ ∃ channel ∈ c.channels,
          is_same_ip channel.endpoint.address endpoint.address = true ∧
            channel.node_id = node_id)) ∧
    (c.stopped = false → not_a_peer endpoint allow_local_peers = false →
      (∀ channel ∈ c.channels,
        is_same_ip channel.endpoint.address endpoint.address = false ∨
          channel.node_id ≠ node_id) →
      transport.tcp_channels.check not_a_peer is_same_ip allow_local_peers c endpoint node_id
        = true) := by
  have key : transport.tcp_channels.check not_a_peer is_same_ip allow_local_peers c endpoint
      node_id = true ↔
      (c.stopped = false ∧ not_a_peer endpoint allow_local_peers = false ∧
        ¬ ∃ channel ∈ c.channels,
          is_same_ip channel.endpoint.address endpoint.address = true ∧
            channel.node_id = node_id) := by
    unfold transport.tcp_channels.check
    by_cases hs : c.stopped = true
    · simp [hs]
    · by_cases hp : not_a_peer endpoint allow_local_peers = true
      · simp [hs, hp]
      · simp only [hs, hp, Bool.false_eq_true, if_false]
        have hs2 : c.stopped = false := by simpa using hs
        have hp2 : not_a_peer endpoint allow_local_peers = false := by simpa using hp
        simp only [hs2, hp2, true_and]
        by_cases hd : (c.channels.any (fun channel =>
            if is_same_ip channel.endpoint.address endpoint.address then
              if channel.node_id == node_id then true else false
            else false)) = true
        · simp only [hd, if_true, Bool.false_eq_true, false_iff, not_not]
          obtain ⟨ch, hch, hcond⟩ := List.any_eq_true.1 hd
          refine ⟨ch, hch, ?_⟩
          by_cases hip : is_same_ip ch.endpoint.address endpoint.address = true
          · by_cases hid : ch.node_id = node_id
            · exact ⟨hip, hid⟩
            · simp [hip, hid] at hcond
          · simp [hip] at hcond
        · simp only [hd, Bool.false_eq_true, if_false, true_iff]
          rintro ⟨ch, hch, hip, hid⟩
          apply hd
          exact List.any_eq_true.2 ⟨ch, hch, by simp [hip, hid]⟩
  refine ⟨key, ?_⟩
  intro hs hp hall
  rw [key]
  refine ⟨hs, hp, ?_⟩
  rintro ⟨ch, hch, hip, hid⟩
  rcases hall ch hch with h | h
  · rw [hip] at h
    exact absurd h (by simp)
  · exact h hid

/-- C17, at a concrete container: with one channel from address 10 under node id 1, a request
from address 10 under node id 2 and a request from address 11 under node id 1 both pass when
`is_same_ip` is equality of addresses and no endpoint is rejected. -/
theorem check_iff_witness :
    transport.tcp_channels.check (fun _ _ => false) (fun a b => a == b) false
        ⟨[⟨⟨10, 7075⟩, 1, true, 21, 100⟩], [], false⟩ ⟨10, 7076⟩ 2 = true ∧
    transport.tcp_channels.check (fun _ _ => false) (fun a b => a == b) false
        ⟨[⟨⟨10, 7075⟩, 1, true, 21, 100⟩], [], false⟩ ⟨11, 7075⟩ 1 = true :=
  ⟨(check_iff (fun _ _ => false) (fun a b => a == b) false
      ⟨[⟨⟨10, 7075⟩, 1, true, 21, 100⟩], [], false⟩ ⟨10, 7076⟩ 2).2 rfl rfl
      (by decide),
    (check_iff (fun _ _ => false) (fun a b => a == b) false
      ⟨[⟨⟨10, 7075⟩, 1, true, 21, 100⟩], [], false⟩ ⟨11, 7075⟩ 1).2 rfl rfl
      (by decide)⟩

/-! ## Properties of tag expiry -/

theorem expire_append (now : Nat) (tags : ordered_tags) :
    (ordered_tags.expire now tags).1 ++ (ordered_tags.expire now tags).2 = tags ∧
      ∀ t ∈ (ordered_tags.expire now tags).1, t.cutoff < now := by
  induction tags with
  | nil => simp [ordered_tags.expire]
  | cons front rest ih =>
    unfold ordered_tags.expire
    by_cases hf : should_timeout now front = true
    · simp only [hf, if_true, List.cons_append, ih.1, true_and]
      intro t ht
      rcases List.mem_cons.1 ht with rfl | hmem
      · simpa [should_timeout] using hf
      · exact ih.2 t hmem
    · simp [hf]

theorem expire_rest_pending (now : Nat) (tags : ordered_tags)
    (hordered : List.Pairwise (fun a b : async_tag => a.cutoff ≤ b.cutoff) tags) :
    ∀ t ∈ (ordered_tags.expire now tags).2, now ≤ t.cutoff := by
  induction tags with
  | nil => simp [ordered_tags.expire]
  | cons front rest ih =>
    obtain ⟨hfront, hrest⟩ := List.pairwise_cons.1 hordered
    unfold ordered_tags.expire
    by_cases hf : should_timeout now front = true
    · simp only [hf, if_true]
      exact ih hrest
    · simp only [hf, Bool.false_eq_true, if_false]
      have hnow : now ≤ front.cutoff := by
        simpa [should_timeout] using hf
      intro t ht
      rcases List.mem_cons.1 ht with rfl | hmem
      · exact hnow
      · exact Nat.le_trans hnow (hfront t hmem)

theorem expire_eq_filter (now : Nat) (tags : ordered_tags)
    (hordered : List.Pairwise (fun a b : async_tag => a.cutoff ≤ b.cutoff) tags) :
    (ordered_tags.expire now tags).1 = tags.filter (fun t => decide (t.cutoff < now)) ∧
    (ordered_tags.expire now tags).2 = tags.filter (fun t => !decide (t.cutoff < now)) := by
  obtain ⟨happ, hexp⟩ := expire_append now tags
  have hpend := expire_rest_pending now tags hordered
  have h1 : ((ordered_tags.expire now tags).1).filter (fun t => decide (t.cutoff < now))
      = (ordered_tags.expire now tags).1 :=
    List.filter_eq_self.2 (fun t ht => by simpa using hexp t ht)
  have h2 : ((ordered_tags.expire now tags).2).filter (fun t => decide (t.cutoff < now))
      = [] :=
    List.filter_eq_nil_iff.2 (fun t ht => by simpa using hpend t ht)
  have h3 : ((ordered_tags.expire now tags).1).filter (fun t => !decide (t.cutoff < now))
      = [] :=
    List.filter_eq_nil_iff.2 (fun t ht => by simpa using hexp t ht)
  have h4 : ((ordered_tags.expire now tags).2).filter (fun t => !decide (t.cutoff < now))
      = (ordered_tags.expire now tags).2 :=
    List.filter_eq_self.2 (fun t ht => by simpa using hpend t ht)
  constructor
  · conv_rhs => rw [← happ]
    rw [List.filter_append, h1, h2, List.append_nil]
  · conv_rhs => rw [← happ]
    rw [List.filter_append, h3, h4, List.nil_append]

theorem cutoffs_ordered (request_timeout : Nat) (tags : ordered_tags)
    (hcutoff : ∀ t ∈ tags, t.cutoff = t.timestamp + request_timeout)
    (hcreated : List.Pairwise (fun a b : async_tag => a.timestamp ≤ b.timestamp) tags) :
    List.Pairwise (fun a b : async_tag => a.cutoff ≤ b.cutoff) tags := by
  induction tags with
  | nil => exact List.Pairwise.nil
  | cons front rest ih =>
    obtain ⟨hfront, hrest⟩ := List.pairwise_cons.1 hcreated
    refine List.pairwise_cons.2 ⟨?_, ih (fun t ht => hcutoff t (List.mem_cons_of_mem _ ht)) hrest⟩
    intro t ht
    have h1 := hcutoff front (List.mem_cons_self _ _)
    have h2 := hcutoff t (List.mem_cons_of_mem _ ht)
    have h3 := hfront t ht
    omega

/-- C20: if every tag of the insertion-order index has `cutoff = creation time +
request_timeout` and creation times are non-decreasing along the index, then the cutoffs are
non-decreasing along it, the tags with cutoff before `now` form a prefix of it (the index is
the returned tags followed by the remaining ones, the former all expired and the latter all
not), and `expire(now)` returns exactly the expired tags and leaves exactly the non-expired
tags, in their original order. -/
theorem expire_returns_expired (request_timeout now : Nat) (tags : ordered_tags)
    (hcutoff : ∀ t ∈ tags, t.cutoff = t.timestamp + request_timeout)
    (hcreated : List.Pairwise (fun a b : async_tag => a.timestamp ≤ b.timestamp) tags) :
    List.Pairwise (fun a b : async_tag => a.cutoff ≤ b.cutoff) tags ∧
    ((ordered_tags.expire now tags).1 ++ (ordered_tags.expire now tags).2 = tags ∧
      (∀ t ∈ (ordered_tags.expire now tags).1, t.cutoff < now) ∧
      (∀ t ∈ (ordered_tags.expire now tags).2, now ≤ t.cutoff)) ∧
    (ordered_tags.expire now tags).1 = tags.filter (fun t => decide (t.cutoff < now)) ∧
    (ordered_tags.expire now tags).2 = tags.filter (fun t => !decide (t.cutoff < now)) := by
  have hordered := cutoffs_ordered request_timeout tags hcutoff hcreated
  exact ⟨hordered,
    ⟨(expire_append now tags).1, (expire_append now tags).2,
      expire_rest_pending now tags hordered⟩,
    (expire_eq_filter now tags hordered).1, (expire_eq_filter now tags hordered).2⟩

/-- C20, at a concrete table: three tags created at 5, 20 and 20 with a timeout of 15 have
cutoffs 20, 35 and 35; at time 30 `expire` returns the first and leaves the other two. -/
theorem expire_returns_expired_witness :
    (ordered_tags.expire 30
        [⟨.blocks_by_account, .priority, 2, 2, 0, 8, 20, 5, 9⟩,
          ⟨.blocks_by_account, .priority, 1, 1, 0, 8, 35, 20, 7⟩,
          ⟨.frontiers, .frontiers, 0, 0, 0, 0, 35, 20, 8⟩]).1
      = List.filter (fun t => decide (t.cutoff < 30))
          [⟨.blocks_by_account, .priority, 2, 2, 0, 8, 20, 5, 9⟩,
            ⟨.blocks_by_account, .priority, 1, 1, 0, 8, 35, 20, 7⟩,
            ⟨.frontiers, .frontiers, 0, 0, 0, 0, 35, 20, 8⟩] :=
  (expire_returns_expired 15 30
    [⟨.blocks_by_account, .priority, 2, 2, 0, 8, 20, 5, 9⟩,
      ⟨.blocks_by_account, .priority, 1, 1, 0, 8, 35, 20, 7⟩,
      ⟨.frontiers, .frontiers, 0, 0, 0, 0, 35, 20, 8⟩]
    (by decide) (by decide)).2.2.1

/-! ## Properties of the request aggregator -/

theorem aggregate_one_final (l : ledger) (acc : List ledger_block × List ledger_block)
    (request : Nat × Nat) :
    (request_aggregator.aggregate_one l acc request).2 =
      acc.2 ++ ((request_aggregator.search_for_block l request.1 request.2).filter
        (request_aggregator.should_generate_final_vote l)).toList := by
  unfold request_aggregator.aggregate_one
  cases hs : request_aggregator.search_for_block l request.1 request.2 with
  | none => simp
  | some block =>
    by_cases hg : request_aggregator.should_generate_final_vote l block = true
    · simp [hg, Option.filter]
    · simp [hg, Option.filter]

theorem aggregate_foldl_final (l : ledger) (requests : List (Nat × Nat))
    (acc : List ledger_block × List ledger_block) :
    (requests.foldl (request_aggregator.aggregate_one l) acc).2 =
      acc.2 ++ requests.filterMap (fun request =>
        (request_aggregator.search_for_block l request.1 request.2).filter
          (request_aggregator.should_generate_final_vote l)) := by
  induction requests generalizing acc with
  | nil => simp
  | cons request rest ih =>
    rw [List.foldl_cons, ih, aggregate_one_final]
    cases hf : (request_aggregator.search_for_block l request.1 request.2).filter
        (request_aggregator.should_generate_final_vote l) with
    | none => simp [List.filterMap_cons, hf]
    | some block => simp [List.filterMap_cons, hf]

/-- C21: in `aggregate`, a found block passes `should_generate_final_vote` if and only if
either a final vote is stored for its qualified root and equals its hash, or no final vote
is stored for that root and the block is confirmed; `remaining_final` is, in the order of
the requests, the found blocks that pass, so a request whose block is not found adds
nothing and every other request adds its block exactly when the block passes. -/
theorem aggregate_remaining_final (l : ledger) (requests : List (Nat × Nat)) :
    (∀ block : ledger_block,
      request_aggregator.should_generate_final_vote l block = true ↔
        ((∃ final_hash, l.final_vote_get block.qualified_root = some final_hash ∧
            final_hash = block.hash) ∨
          (l.final_vote_get block.qualified_root = none ∧
            l.confirmed_block_exists block.hash = true))) ∧
    (request_aggregator.aggregate l requests).remaining_final =
      requests.filterMap (fun request =>
        match request_aggregator.search_for_block l request.1 request.2 with
        | some block =>
          if request_aggregator.should_generate_final_vote l block then some block else none
        | none => none) ∧
    (∀ (before after : List (Nat × Nat)) (hash root : Nat),
      (request_aggregator.aggregate l (before ++ (hash, root) :: after)).remaining_final =
        (request_aggregator.aggregate l before).remaining_final ++
          (request_aggregator.aggregate l [(hash, root)]).remaining_final ++
          (request_aggregator.aggregate l after).remaining_final) := by
  have hfinal : ∀ rs : List (Nat × Nat),
      (request_aggregator.aggregate l rs).remaining_final =
        rs.filterMap (fun request =>
          (request_aggregator.search_for_block l request.1 request.2).filter
            (request_aggregator.should_generate_final_vote l)) := by
    intro rs
    unfold request_aggregator.aggregate
    simp only [aggregate_foldl_final, List.nil_append]
  refine ⟨?_, ?_, ?_⟩
  · intro block
    unfold request_aggregator.should_generate_final_vote
    cases hv : l.final_vote_get block.qualified_root with
    | none => simp
    | some final_hash => simp
  · rw [hfinal]
    congr 1
    funext request
    cases request_aggregator.search_for_block l request.1 request.2 with
    | none => rfl
    | some block => simp [Option.filter]
  · intro before after hash root
    simp only [hfinal, List.filterMap_append, List.filterMap_cons, List.filterMap_nil]
    cases (request_aggregator.search_for_block l hash root).filter
        (request_aggregator.should_generate_final_vote l) with
    | none => simp
    | some block => simp

/-- C22: the block lookup of `aggregate` for a request (hash, root) returns the ledger block
with that hash whenever it exists, whatever the root; otherwise, for a non-zero root, the
block of the successor of the root when the root has a successor, and else the open block of
the account equal to the root when that account exists; it returns no block when the hash
is unknown and the root is zero, and when none of the three lookups succeeds. -/
theorem search_for_block_lookup (l : ledger) (hash root : Nat) :
    (∀ block, l.block_get hash = some block →
      request_aggregator.search_for_block l hash root = some block) ∧
    (l.block_get hash = none → root ≠ 0 →
      ∀ successor, l.block_successor root = some successor →
        request_aggregator.search_for_block l hash root = l.block_get successor) ∧
    (l.block_get hash = none → root ≠ 0 → l.block_successor root = none →
      ∀ info, l.account_get root = some info →
        request_aggregator.search_for_block l hash root = l.block_get info.open_block) ∧
    (l.block_get hash = none → root = 0 →
      request_aggregator.search_for_block l hash root = none) ∧
    (l.block_get hash = none → l.block_successor root = none → l.account_get root = none →
      request_aggregator.search_for_block l hash root = none) := by
  refine ⟨?_, ?_, ?_, ?_, ?_⟩
  · intro block hb
    simp [request_aggregator.search_for_block, hb]
  · intro hb hr successor hs
    simp [request_aggregator.search_for_block, hb, hr, hs]
  · intro hb hr hs info hi
    simp [request_aggregator.search_for_block, hb, hr, hs, hi]
  · intro hb hr
    simp [request_aggregator.search_for_block, hb, hr]
  · intro hb hs hi
    simp [request_aggregator.search_for_block, hb, hs, hi]

/-- C22, at a concrete ledger that holds block 20 as the successor of 10 and no block 99: the
request (99, 10) finds block 20 by its root. -/
theorem search_for_block_lookup_witness :
    request_aggregator.search_for_block
        { block_get := fun h => if h = 20 then some ⟨20, 10⟩ else none
          block_successor := fun r => if r = 10 then some 20 else none
          account_get := fun _ => none
          final_vote_get := fun _ => none
          confirmed_block_exists := fun _ => false } 99 10
      = some ⟨20, 10⟩ :=
  (search_for_block_lookup
    { block_get := fun h => if h = 20 then some ⟨20, 10⟩ else none
      block_successor := fun r => if r = 10 then some 20 else none
      account_get := fun _ => none
      final_vote_get := fun _ => none
      confirmed_block_exists := fun _ => false } 99 10).2.1 rfl (by decide) 20 rfl

/-! ## Properties of channel sampling and purging -/

theorem insert_channel_ok (c : transport.tcp_channels) (count_a min_version index : Nat)
    (result : List Nat) (channel : transport.channel_entry)
    (hok : sampled_ok c count_a min_version result) (hlen : result.length < count_a)
    (hget : c.channels.get? index = some channel) (halive : channel.alive = true)
    (hversion : min_version ≤ channel.network_version) :
    sampled_ok c count_a min_version (transport.insert_channel index result) := by
  obtain ⟨hnodup, _, hmem⟩ := hok
  unfold transport.insert_channel
  by_cases hc : result.contains index = true
  · simp only [hc, if_true]
    exact ⟨hnodup, Nat.le_of_lt hlen, hmem⟩
  · simp only [hc, Bool.false_eq_true, if_false]
    have hnot : index ∉ result := by simpa using hc
    refine ⟨?_, ?_, ?_⟩
    · rw [List.nodup_append]
      refine ⟨hnodup, List.nodup_singleton _, ?_⟩
      intro a ha hb
      rw [List.mem_singleton] at hb
      subst hb
      exact hnot ha
    · simp only [List.length_append, List.length_singleton]
      omega
    · intro k hk
      rcases List.mem_append.1 hk with hk | hk
      · exact hmem k hk
      · rw [List.mem_singleton] at hk
        subst hk
        exact ⟨channel, hget, halive, hversion⟩

theorem sample_ok (c : transport.tcp_channels) (random : Nat → Nat → Nat)
    (count_a min_version i : Nat) (result : List Nat)
    (hok : sampled_ok c count_a min_version result) (hlen : result.length < count_a) :
    sampled_ok c count_a min_version
      (transport.tcp_channels.sample c random min_version i result) := by
  unfold transport.tcp_channels.sample
  simp only
  cases hget : c.channels.get? (random i c.channels.length) with
  | none => exact hok
  | some channel =>
    simp only
    by_cases halive : channel.alive = true
    · by_cases hversion : channel.network_version ≥ min_version
      · simp only [halive, hversion, Bool.not_true, Bool.false_eq_true, if_false, if_true]
        exact insert_channel_ok c count_a min_version _ result channel hok hlen hget halive
          hversion
      · simp only [halive, hversion, Bool.not_true, Bool.false_eq_true, if_false]
        exact hok
    · have hdead : channel.alive = false := by simpa using halive
      simp only [hdead, Bool.not_false, if_true]
      exact hok

theorem random_set_loop_ok (c : transport.tcp_channels) (random : Nat → Nat → Nat)
    (count_a min_version : Nat) (remaining i : Nat) (result : List Nat)
    (hok : sampled_ok c count_a min_version result) (out : List Nat × Nat)
    (hout : transport.tcp_channels.random_set_loop c random count_a min_version remaining i
      result = some out) :
    sampled_ok c count_a min_version out.1 ∧ out.2 ≤ i + remaining := by
  induction remaining generalizing i result with
  | zero =>
    unfold transport.tcp_channels.random_set_loop at hout
    obtain rfl := Option.some.inj hout
    exact ⟨hok, Nat.le_refl _⟩
  | succ remaining ih =>
    unfold transport.tcp_channels.random_set_loop at hout
    by_cases hlen : result.length < count_a
    · simp only [hlen, if_true] at hout
      by_cases hint : i + 1 ≥ 2 ^ 31
      · rw [if_pos hint] at hout
        exact absurd hout (by simp)
      · rw [if_neg hint] at hout
        have h := ih (i + 1) _ (sample_ok c random count_a min_version i result hok hlen) hout
        exact ⟨h.1, by omega⟩
    · simp only [hlen, if_false] at hout
      obtain rfl := Option.some.inj hout
      exact ⟨hok, by omega⟩

theorem random_set_loop_returns (c : transport.tcp_channels) (random : Nat → Nat → Nat)
    (count_a min_version : Nat) (remaining i : Nat) (result : List Nat)
    (hint : i + remaining < 2 ^ 31) :
    (transport.tcp_channels.random_set_loop c random count_a min_version remaining i
      result).isSome = true := by
  induction remaining generalizing i result with
  | zero => simp [transport.tcp_channels.random_set_loop]
  | succ remaining ih =>
    unfold transport.tcp_channels.random_set_loop
    by_cases hlen : result.length < count_a
    · have hstep : ¬ i + 1 ≥ 2 ^ 31 := by omega
      rw [if_pos hlen, if_neg hstep]
      exact ih (i + 1) _ (by omega)
    · simp [hlen]

/-- C23, as the code behaves: for every channel container, `min_version` and `count`,
whenever `random_set` returns it has made at most `2 * count` sampling attempts and returns
a set of at most `count` distinct channels, each of which is a member of the container, was
alive when sampled and has network version at least `min_version`, and the set is empty
when the container is empty or `count` is 0; and it does return whenever `reserve (count)`
succeeds and either the container is empty or `count` is below `2 ^ 30`, so that the `int`
loop counter stays in range. -/
theorem random_set_bounds (max_buckets : Nat) (c : transport.tcp_channels)
    (random : Nat → Nat → Nat) (count_a min_version : Nat) :
    (∀ out : List Nat × Nat, c.random_set max_buckets random count_a min_version = some out →
      out.2 ≤ 2 * count_a ∧ out.1.length ≤ count_a ∧ out.1.Nodup ∧
      (∀ index ∈ out.1, ∃ channel, c.channels.get? index = some channel ∧
        channel.alive = true ∧ min_version ≤ channel.network_version) ∧
      ((c.channels = [] ∨ count_a = 0) → out.1 = [])) ∧
    (transport.reserve max_buckets count_a = true → (c.channels = [] ∨ count_a < 2 ^ 30) →
      (c.random_set max_buckets random count_a min_version).isSome = true) := by
  have hempty : sampled_ok c count_a min_version [] :=
    ⟨List.nodup_nil, Nat.zero_le _, fun _ h => absurd h (List.not_mem_nil _)⟩
  have hcut : (count_a * 2) % 2 ^ 64 ≤ 2 * count_a := by
    have := Nat.mod_le (count_a * 2) (2 ^ 64)
    omega
  constructor
  · intro out hout
    unfold transport.tcp_channels.random_set at hout
    by_cases hres : transport.reserve max_buckets count_a = true
    · simp only [hres, if_true] at hout
      have hmain : sampled_ok c count_a min_version out.1 ∧ out.2 ≤ 2 * count_a := by
        by_cases he : c.channels.isEmpty = true
        · simp only [he, Bool.not_true, Bool.false_eq_true, if_false] at hout
          obtain rfl := Option.some.inj hout
          exact ⟨hempty, Nat.zero_le _⟩
        · simp only [he, Bool.not_false, if_true] at hout
          have h := random_set_loop_ok c random count_a min_version _ 0 [] hempty out hout
          exact ⟨h.1, by omega⟩
      obtain ⟨⟨hnodup, hlen, hmem⟩, hattempts⟩ := hmain
      refine ⟨hattempts, hlen, hnodup, hmem, ?_⟩
      rintro (hnil | hzero)
      · simp only [hnil, List.isEmpty_nil, Bool.not_true, Bool.false_eq_true, if_false] at hout
        obtain rfl := Option.some.inj hout
        rfl
      · subst hzero
        exact List.eq_nil_of_length_eq_zero (Nat.le_zero.1 hlen)
    · simp [hres] at hout
  · intro hres hsmall
    unfold transport.tcp_channels.random_set
    simp only [hres, if_true]
    by_cases he : c.channels.isEmpty = true
    · simp [he]
    · simp only [he, Bool.not_false, if_true]
      rcases hsmall with hnil | hsmall
      · exact absurd (by simp [hnil]) he
      · exact random_set_loop_returns c random count_a min_version _ 0 [] (by omega)

/-- C23, at a concrete container of three channels, the second not alive and the third of
version 18, sampled in turn with `min_version = 20` and room for `2 ^ 20` buckets: with
`count = 2` the call returns, and with `count = 0` it returns too. -/
theorem random_set_bounds_witness :
    (transport.tcp_channels.random_set (2 ^ 20)
        ⟨[⟨⟨10, 7075⟩, 1, true, 21, 100⟩, ⟨⟨11, 7075⟩, 2, false, 21, 100⟩,
          ⟨⟨12, 7075⟩, 3, true, 18, 100⟩], [], false⟩
        (fun i n => i % n) 2 20).isSome = true ∧
    (transport.tcp_channels.random_set (2 ^ 20)
        ⟨[⟨⟨10, 7075⟩, 1, true, 21, 100⟩, ⟨⟨11, 7075⟩, 2, false, 21, 100⟩,
          ⟨⟨12, 7075⟩, 3, true, 18, 100⟩], [], false⟩
        (fun i n => i % n) 0 20).isSome = true :=
  ⟨(random_set_bounds (2 ^ 20)
      ⟨[⟨⟨10, 7075⟩, 1, true, 21, 100⟩, ⟨⟨11, 7075⟩, 2, false, 21, 100⟩,
        ⟨⟨12, 7075⟩, 3, true, 18, 100⟩], [], false⟩
      (fun i n => i % n) 2 20).2 (by decide) (Or.inr (by decide)),
    (random_set_bounds (2 ^ 20)
      ⟨[⟨⟨10, 7075⟩, 1, true, 21, 100⟩, ⟨⟨11, 7075⟩, 2, false, 21, 100⟩,
        ⟨⟨12, 7075⟩, 3, true, 18, 100⟩], [], false⟩
      (fun i n => i % n) 0 20).2 (by decide) (Or.inr (by decide))⟩

/-- C23 fails as stated. For `count = 2 ^ 63` the reservation of the set throws, whatever the
memory at hand, before the container is looked at: on an empty container the call does not
return the empty set, it does not return. -/
theorem random_set_bounds_counterexample :
    transport.reserve (2 ^ 64) (2 ^ 63) = false ∧
    transport.tcp_channels.random_set (2 ^ 64) ⟨[], [], false⟩ (fun i n => i % n) (2 ^ 63) 0
      = none := by
  constructor <;> decide

theorem take_length_takeWhile {α : Type} (p : α → Bool) (l : List α) :
    l.take (l.takeWhile p).length = l.takeWhile p := by
  induction l with
  | nil => simp
  | cons a rest ih =>
    by_cases ha : p a = true
    · simp [List.takeWhile_cons, ha, ih]
    · simp [List.takeWhile_cons, ha]

theorem takeWhile_eq_filter_of_sorted (cutoff : Nat) (l : List (transport.tcp_endpoint × Nat))
    (h : l.Sorted (fun a b => a.2 ≤ b.2)) :
    l.takeWhile (fun a => decide (a.2 < cutoff)) = l.filter (fun a => decide (a.2 < cutoff)) := by
  induction l with
  | nil => simp
  | cons a rest ih =>
    obtain ⟨hfirst, hrest⟩ := List.sorted_cons.1 h
    by_cases ha : a.2 < cutoff
    · simp [List.takeWhile_cons, List.filter_cons, ha, ih hrest]
    · have hnone : rest.filter (fun a => decide (a.2 < cutoff)) = [] := by
        rw [List.filter_eq_nil_iff]
        intro b hb
        have := hfirst b hb
        simp only [decide_eq_true_eq]
        omega
      simp [List.takeWhile_cons, List.filter_cons, ha, hnone]

theorem mem_erased_attempts (cutoff : Nat) (attempts : List (transport.tcp_endpoint × Nat))
    (a : transport.tcp_endpoint × Nat) :
    a ∈ (transport.attempts_by_last_attempt attempts).take
        (transport.lower_bound cutoff (transport.attempts_by_last_attempt attempts)) ↔
      a ∈ attempts ∧ a.2 < cutoff := by
  haveI : IsTotal (transport.tcp_endpoint × Nat) (fun a b => a.2 ≤ b.2) :=
    ⟨fun a b => Nat.le_total a.2 b.2⟩
  haveI : IsTrans (transport.tcp_endpoint × Nat) (fun a b => a.2 ≤ b.2) :=
    ⟨fun _ _ _ hab hbc => Nat.le_trans hab hbc⟩
  unfold transport.lower_bound
  rw [take_length_takeWhile]
  unfold transport.attempts_by_last_attempt
  rw [takeWhile_eq_filter_of_sorted cutoff _ (List.sorted_insertionSort _ attempts)]
  simp only [List.mem_filter, decide_eq_true_eq]
  rw [(List.perm_insertionSort _ attempts).mem_iff]

theorem purge_channels_eq (protocol_version_min cutoff_deadline : Nat)
    (channels : List transport.channel_entry) :
    (channels.map (fun entry =>
        if transport.should_close protocol_version_min cutoff_deadline entry then entry.close
        else entry)).filter (fun entry => entry.alive) =
      channels.filter (fun entry =>
        entry.alive && decide (cutoff_deadline ≤ entry.last_packet_sent) &&
          decide (protocol_version_min ≤ entry.network_version)) := by
  induction channels with
  | nil => simp
  | cons entry rest ih =>
    rw [List.map_cons, List.filter_cons, List.filter_cons, ih]
    unfold transport.should_close
    by_cases h1 : entry.last_packet_sent < cutoff_deadline
    · have h1n : ¬ cutoff_deadline ≤ entry.last_packet_sent := by omega
      simp [h1, h1n, transport.channel_entry.close]
    · have h1p : cutoff_deadline ≤ entry.last_packet_sent := by omega
      by_cases h2 : entry.network_version < protocol_version_min
      · have h2n : ¬ protocol_version_min ≤ entry.network_version := by omega
        simp [h1, h2, h2n, transport.channel_entry.close]
      · have h2p : protocol_version_min ≤ entry.network_version := by omega
        simp [h1, h2, h1p, h2p]

/-- C24: after `purge (cutoff)`, with `close ()` making a channel not alive, the container
holds exactly the channels that were alive before the call, had `last_packet_sent ≥ cutoff`
and had network version at least `protocol_version_min`, in their order; and the reachout
attempts that remain are exactly those whose last attempt time is at least the cutoff:
attempts strictly older than the cutoff are removed, one exactly at the cutoff is kept. -/
theorem purge_keeps (protocol_version_min : Nat) (c : transport.tcp_channels)
    (cutoff_deadline : Nat) :
    (c.purge protocol_version_min cutoff_deadline).channels =
      c.channels.filter (fun entry =>
        entry.alive && decide (cutoff_deadline ≤ entry.last_packet_sent) &&
          decide (protocol_version_min ≤ entry.network_version)) ∧
    (∀ entry, entry ∈ (c.purge protocol_version_min cutoff_deadline).channels ↔
      (entry ∈ c.channels ∧ entry.alive = true ∧ cutoff_deadline ≤ entry.last_packet_sent ∧
        protocol_version_min ≤ entry.network_version)) ∧
    (c.purge protocol_version_min cutoff_deadline).attempts =
      c.attempts.filter (fun a => decide (cutoff_deadline ≤ a.2)) ∧
    (∀ a, a ∈ (c.purge protocol_version_min cutoff_deadline).attempts ↔
      (a ∈ c.attempts ∧ cutoff_deadline ≤ a.2)) := by
  have hchannels : (c.purge protocol_version_min cutoff_deadline).channels =
      c.channels.filter (fun entry =>
        entry.alive && decide (cutoff_deadline ≤ entry.last_packet_sent) &&
          decide (protocol_version_min ≤ entry.network_version)) := by
    unfold transport.tcp_channels.purge
    exact purge_channels_eq protocol_version_min cutoff_deadline c.channels
  have hattempts : (c.purge protocol_version_min cutoff_deadline).attempts =
      c.attempts.filter (fun a => decide (cutoff_deadline ≤ a.2)) := by
    unfold transport.tcp_channels.purge
    simp only
    apply List.filter_congr
    intro a _
    by_cases ha : a.2 < cutoff_deadline
    · have hmem := (mem_erased_attempts cutoff_deadline c.attempts a).2 ⟨by assumption, ha⟩
      have hle : ¬ cutoff_deadline ≤ a.2 := by omega
      simp [hmem, hle]
    · have hnot : a ∉ (transport.attempts_by_last_attempt c.attempts).take
          (transport.lower_bound cutoff_deadline
            (transport.attempts_by_last_attempt c.attempts)) :=
        fun hmem => ha ((mem_erased_attempts cutoff_deadline c.attempts a).1 hmem).2
      have hle : cutoff_deadline ≤ a.2 := by omega
      simp [hnot, hle]
  refine ⟨hchannels, ?_, hattempts, ?_⟩
  · intro entry
    rw [hchannels]
    simp only [List.mem_filter, Bool.and_eq_true, decide_eq_true_eq]
    tauto
  · intro a
    rw [hattempts]
    simp only [List.mem_filter, decide_eq_true_eq]

end nano
